import Mathlib

/-!
# RepoGuardian — verification of the sync/backup core

A shallow embedding, in Lean 4, of the core logic of the RepoGuardian
repository (files `src/git_sync.py`, `src/main.py`, `src/database.py`),
together with theorems settling the frozen claims about it.

Conventions of the embedding:
* Python functions become Lean functions; code that may raise becomes
  `Except`-valued code, with `try/except` boundaries modelled by matching
  on the `Except` value.
* External effects (the Git library, the filesystem, the clock) are
  modelled by explicit environments: an operation that the code may call
  several times (under retry) is a function `Nat → Except ε α` giving the
  outcome of its `i`-th invocation.
* Machine-level details (threads, real sleeping) are abstracted: the
  worker pool is modelled by its observable aggregation of results, and
  sleeps are recorded as a list of slept durations.
-/

set_option maxHeartbeats 1000000

namespace RepoGuardian

/-! ## Retry executor (`GitRepositorySync.retry_operation`, git_sync.py lines 66–94)

The Python loop is

```
last_error = None
for attempt in range(self.max_retries):
    try:
        return operation(*args, **kwargs)
    except Exception as e:
        last_error = e
        if attempt < self.max_retries - 1:
            wait_time = (2 ** attempt) * 1
            time.sleep(wait_time)
            continue
        break
raise GitSyncError(f"...: {str(last_error)}")
```

`retryAux` mirrors it: `op i` is the outcome of the `i`-th invocation of
`operation`; the trace records the returned value or the raised
`GitSyncError` (wrapping `last_error`, which is `none` when the loop body
never ran), the list of slept durations, and how many times `operation`
was invoked. -/

/-- Observable trace of one `retry_operation` call: the result (`.error`
is the raised `GitSyncError`, carrying `last_error`), the sleep durations
performed between attempts, and the number of invocations of the wrapped
operation. -/
structure RetryTrace (ε α : Type) where
  result : Except (Option ε) α
  sleeps : List Nat
  calls : Nat

/-- The retry loop of `retry_operation`, from attempt number `attempt`
onwards, with the sleeps and invocation count accumulated so far. -/
def retryAux {ε α : Type} (op : Nat → Except ε α) (maxRetries : Nat) :
    Nat → List Nat → Nat → RetryTrace ε α :=
  fun attempt sleeps calls =>
    if _h : attempt < maxRetries then
      match op attempt with
      | .ok a => ⟨.ok a, sleeps, calls + 1⟩
      | .error e =>
        if attempt < maxRetries - 1 then
          retryAux op maxRetries (attempt + 1) (sleeps ++ [2 ^ attempt * 1]) (calls + 1)
        else
          ⟨.error (some e), sleeps, calls + 1⟩
    else
      ⟨.error none, sleeps, calls⟩
termination_by attempt => maxRetries - attempt
decreasing_by omega

/-- `retry_operation` (git_sync.py lines 66–94): run the retry loop from
attempt 0 with nothing accumulated. -/
def retry_operation {ε α : Type} (op : Nat → Except ε α) (maxRetries : Nat) : RetryTrace ε α :=
  retryAux op maxRetries 0 [] 0

theorem retryAux_calls_le {ε α : Type} (op : Nat → Except ε α) (maxRetries : Nat) :
    ∀ d attempt sleeps calls, maxRetries ≤ attempt + d →
      (retryAux op maxRetries attempt sleeps calls).calls ≤ calls + d := by
  intro d
  induction d with
  | zero =>
    intro attempt sleeps calls h
    rw [retryAux, dif_neg (by omega)]
    dsimp only
    omega
  | succ d ih =>
    intro attempt sleeps calls h
    rw [retryAux]
    by_cases hlt : attempt < maxRetries
    · rw [dif_pos hlt]
      cases hop : op attempt with
      | ok a => dsimp only; omega
      | error e =>
        dsimp only
        by_cases h2 : attempt < maxRetries - 1
        · rw [if_pos h2]
          have := ih (attempt + 1) (sleeps ++ [2 ^ attempt * 1]) (calls + 1) (by omega)
          omega
        · rw [if_neg h2]; dsimp only; omega
    · rw [dif_neg hlt]; dsimp only; omega

theorem retryAux_ok {ε α : Type} (op : Nat → Except ε α) (maxRetries : Nat) :
    ∀ j attempt sleeps calls, attempt + j < maxRetries →
      (∀ i, attempt ≤ i → i < attempt + j → ∃ e, op i = .error e) →
      ∀ a, op (attempt + j) = .ok a →
      retryAux op maxRetries attempt sleeps calls =
        ⟨.ok a, sleeps ++ (List.range' attempt j).map (fun i => 2 ^ i * 1), calls + j + 1⟩ := by
  intro j
  induction j with
  | zero =>
    intro attempt sleeps calls hlt _hfail a hok
    rw [Nat.add_zero] at hlt hok
    rw [retryAux, dif_pos hlt, hok]
    simp
  | succ j ih =>
    intro attempt sleeps calls hlt hfail a hok
    obtain ⟨e, he⟩ := hfail attempt le_rfl (by omega)
    rw [retryAux, dif_pos (by omega), he]
    simp only
    rw [if_pos (by omega : attempt < maxRetries - 1)]
    have hrec := ih (attempt + 1) (sleeps ++ [2 ^ attempt * 1]) (calls + 1)
      (by omega)
      (fun i h1 h2 => hfail i (by omega) (by omega))
      a (by rw [show attempt + 1 + j = attempt + (j + 1) by omega]; exact hok)
    rw [hrec]
    rw [List.range'_succ]
    simp only [List.map_cons]
    rw [List.append_assoc]
    simp [Nat.add_assoc, Nat.add_comm 1 j]

theorem retryAux_exhaust {ε α : Type} (op : Nat → Except ε α) (maxRetries : Nat) :
    ∀ j attempt sleeps calls, attempt + j + 1 = maxRetries →
      (∀ i, attempt ≤ i → i < maxRetries → ∃ e, op i = .error e) →
      ∃ e, op (maxRetries - 1) = .error e ∧
        retryAux op maxRetries attempt sleeps calls =
          ⟨.error (some e), sleeps ++ (List.range' attempt j).map (fun i => 2 ^ i * 1),
            calls + j + 1⟩ := by
  intro j
  induction j with
  | zero =>
    intro attempt sleeps calls hmr hfail
    obtain ⟨e, he⟩ := hfail attempt le_rfl (by omega)
    refine ⟨e, by rw [show maxRetries - 1 = attempt by omega]; exact he, ?_⟩
    rw [retryAux, dif_pos (by omega), he]
    simp only
    rw [if_neg (by omega)]
    simp
  | succ j ih =>
    intro attempt sleeps calls hmr hfail
    obtain ⟨e, he⟩ := hfail attempt le_rfl (by omega)
    obtain ⟨elast, helast, heq⟩ := ih (attempt + 1) (sleeps ++ [2 ^ attempt * 1]) (calls + 1)
      (by omega) (fun i h1 h2 => hfail i (by omega) h2)
    refine ⟨elast, helast, ?_⟩
    rw [retryAux, dif_pos (by omega), he]
    simp only
    rw [if_pos (by omega : attempt < maxRetries - 1), heq]
    rw [List.range'_succ]
    simp only [List.map_cons]
    rw [List.append_assoc]
    simp [Nat.add_assoc, Nat.add_comm 1 j]

/-- Claim C2: for every operation and every `maxRetries ≥ 1`,
`retry_operation` invokes the operation at most `maxRetries` times; if the
operation fails exactly `k < maxRetries` times and then succeeds,
`retry_operation` returns that success after exactly `k` backoff sleeps,
sleeping `2^i` base time units between attempt `i` and attempt `i+1`
(0-indexed); if the operation fails on all `maxRetries` attempts,
`retry_operation` fails with a `GitSyncError` wrapping the last underlying
error. -/
theorem retry_operation_spec {ε α : Type} (op : Nat → Except ε α) (maxRetries : Nat)
    (hmr : 1 ≤ maxRetries) :
    (retry_operation op maxRetries).calls ≤ maxRetries ∧
    (∀ k a, k < maxRetries → (∀ i, i < k → ∃ e, op i = .error e) → op k = .ok a →
      retry_operation op maxRetries =
        ⟨.ok a, (List.range k).map (fun i => 2 ^ i), k + 1⟩) ∧
    ((∀ i, i < maxRetries → ∃ e, op i = .error e) →
      ∃ e, op (maxRetries - 1) = .error e ∧
        (retry_operation op maxRetries).result = .error (some e) ∧
        (retry_operation op maxRetries).calls = maxRetries) := by
  refine ⟨?_, ?_, ?_⟩
  · have := retryAux_calls_le op maxRetries maxRetries 0 [] 0 (by omega)
    simpa [retry_operation] using this
  · intro k a hk hfail hok
    have := retryAux_ok op maxRetries k 0 [] 0 (by omega)
      (fun i _ h2 => hfail i (by omega)) a (by simpa using hok)
    rw [retry_operation, this]
    rw [List.range_eq_range']
    simp
  · intro hall
    obtain ⟨e, he, heq⟩ := retryAux_exhaust op maxRetries (maxRetries - 1) 0 [] 0
      (by omega) (fun i _ h2 => hall i h2)
    refine ⟨e, he, ?_, ?_⟩
    · rw [retry_operation, heq]
    · rw [retry_operation, heq]
      dsimp only
      omega

/-- Concrete operation for the witness: fails on attempts 0 and 1,
succeeds on attempt 2. -/
def retryWitnessOp : Nat → Except String Nat :=
  fun i => if i < 2 then .error "boom" else .ok 7

/-- Witness for C2 at a concrete input: `maxRetries = 4`, operation
failing twice then succeeding yields the value, two sleeps `[1, 2]`, and
three invocations. -/
theorem retry_operation_spec_witness :
    (retry_operation retryWitnessOp 4).calls ≤ 4 ∧
    retry_operation retryWitnessOp 4 = ⟨.ok 7, [1, 2], 3⟩ := by
  have h := retry_operation_spec retryWitnessOp 4 (by omega)
  refine ⟨h.1, ?_⟩
  have h2 := h.2.1 2 7 (by omega)
    (fun i hi => ⟨"boom", by unfold retryWitnessOp; rw [if_pos hi]⟩)
    (by unfold retryWitnessOp; rw [if_neg (by omega)])
  rw [h2]
  rfl

/-! ## URL validator (`GitRepositorySync.validate_repo_url`, git_sync.py lines 32–64)

The Python code parses the URL with `urllib.parse.urlparse`, checks
`parsed.scheme in ['http', 'https']`, checks
`any(domain in parsed.netloc for domain in valid_domains)` — note that
Python's `in` on strings is *substring* containment — and finally checks
`len(parsed.path.strip('/').split('/')) >= 2`.

The embedding works on `List Char` (a Lean `String` is converted with
`toList`).  `urlparse` is modelled after CPython's `urlsplit` restricted
to the components the validator reads: the scheme (the part before the
first `':'`, when it is a well-formed scheme token), the network location
(after `"//"`, up to the first of `'/'`, `'?'`, `'#'`), and the path
(the remainder, with query and fragment stripped).  The `params` (`';'`)
splitting of `urlparse` is not modelled — the validator never looks at
params, and path splitting on `'/'` is unaffected by it for the URLs the
claims quantify over. -/

/-- Characters allowed in a scheme after its first letter
(CPython `scheme_chars`). -/
def schemeChar (c : Char) : Bool :=
  c.isAlphanum || c = '+' || c = '-' || c = '.'

/-- CPython accepts `url[:i]` as a scheme iff it is nonempty, starts with
a letter and continues with `scheme_chars`. -/
def isValidScheme : List Char → Bool
  | [] => false
  | c :: cs => c.isAlpha && cs.all schemeChar

/-- Split a character list at its first `':'`, returning the parts before
and after it. -/
def splitFirstColon : List Char → Option (List Char × List Char)
  | [] => none
  | c :: cs =>
    if c = ':' then some ([], cs)
    else (splitFirstColon cs).map (fun p => (c :: p.1, p.2))

/-- A character that does not terminate the network location
(CPython `_splitnetloc` stops at `'/'`, `'?'`, `'#'`). -/
def netlocChar (c : Char) : Bool :=
  !(c = '/' || c = '?' || c = '#')

/-- A character that is part of the path proper, before any query
(`'?'`) or fragment (`'#'`) delimiter. -/
def queryFree (c : Char) : Bool :=
  !(c = '?' || c = '#')

/-- Result of parsing a URL, restricted to the three components
`validate_repo_url` reads. -/
structure ParsedUrl where
  scheme : List Char
  netloc : List Char
  path : List Char
  deriving DecidableEq

/-- Scheme extraction of CPython `urlsplit`: the text before the first
`':'` becomes the (lowercased) scheme when it is a valid scheme token;
otherwise the whole input is left for netloc/path parsing. -/
def schemeSplit (url : List Char) : List Char × List Char :=
  match splitFirstColon url with
  | some (bef, aft) =>
    if isValidScheme bef then (bef.map Char.toLower, aft) else ([], url)
  | none => ([], url)

/-- Netloc/path extraction of CPython `urlsplit`: a netloc is present
exactly when the remainder starts with `"//"`; the path is what follows,
truncated at the first query or fragment delimiter. -/
def splitNetlocPath : List Char → List Char × List Char
  | '/' :: '/' :: rest =>
    (rest.takeWhile netlocChar, (rest.dropWhile netlocChar).takeWhile queryFree)
  | other => ([], other.takeWhile queryFree)

/-- `urllib.parse.urlparse`, restricted to scheme, netloc and path. -/
def urlparse (url : List Char) : ParsedUrl :=
  let s := schemeSplit url
  let np := splitNetlocPath s.2
  ⟨s.1, np.1, np.2⟩

/-- Python's substring test `pat in hay`. -/
def containsSub (hay pat : List Char) : Bool :=
  pat.isPrefixOf hay ||
    match hay with
    | [] => false
    | _ :: t => containsSub t pat

/-- Python's `str.split(sep)` for a one-character separator (on a
nonempty separator, `split` never merges and never drops fields; on the
empty string it returns `['']`). -/
def splitOnChar (sep : Char) : List Char → List (List Char)
  | [] => [[]]
  | c :: cs =>
    if c = sep then [] :: splitOnChar sep cs
    else
      match splitOnChar sep cs with
      | [] => [[c]]
      | h :: t => (c :: h) :: t

/-- Python's `str.strip(c)`: remove every leading and trailing
occurrence of `c`. -/
def stripChar (c : Char) (l : List Char) : List Char :=
  ((l.dropWhile (· == c)).reverse.dropWhile (· == c)).reverse

/-- The allow-list of Git-hosting domains (git_sync.py lines 49–54). -/
def valid_domains : List (List Char) :=
  ["github.com".toList, "gitlab.com".toList, "bitbucket.org".toList, "dev.azure.com".toList]

/-- `validate_repo_url` (git_sync.py lines 32–64) on a character list:
scheme must be `http` or `https`; some allow-listed domain must occur in
the netloc (substring test, as Python's `in`); the path, stripped of
leading/trailing slashes and split on `'/'`, must have at least two
fields. -/
def validate_repo_url_chars (url : List Char) : Bool :=
  let parsed := urlparse url
  if parsed.scheme = "http".toList ∨ parsed.scheme = "https".toList then
    if valid_domains.any (fun d => containsSub parsed.netloc d) then
      decide (2 ≤ (splitOnChar '/' (stripChar '/' parsed.path)).length)
    else false
  else false

/-- `validate_repo_url` on a Lean string. -/
def validate_repo_url (url : String) : Bool :=
  validate_repo_url_chars url.toList

theorem splitFirstColon_append {xs ys : List Char} (h : ':' ∉ xs) :
    splitFirstColon (xs ++ ':' :: ys) = some (xs, ys) := by
  induction xs with
  | nil => simp [splitFirstColon]
  | cons c cs ih =>
    have hc : ¬(c = ':') := fun hcc => h (hcc ▸ List.mem_cons_self c cs)
    rw [List.cons_append, splitFirstColon, if_neg hc,
      ih (fun hm => h (List.mem_cons_of_mem c hm))]
    rfl

theorem isPrefixOf_self (l : List Char) : l.isPrefixOf l = true := by
  induction l with
  | nil => rfl
  | cons c cs ih => simp [List.isPrefixOf, ih]

theorem containsSub_self (l : List Char) : containsSub l l = true := by
  cases l with
  | nil => rfl
  | cons c cs => simp [containsSub, isPrefixOf_self]

theorem splitOnChar_not_mem {sep : Char} : ∀ {l : List Char}, sep ∉ l →
    splitOnChar sep l = [l] := by
  intro l
  induction l with
  | nil => intro _; rfl
  | cons c cs ih =>
    intro h
    have hc : ¬(c = sep) := fun hcc => h (hcc ▸ List.mem_cons_self c cs)
    rw [splitOnChar, if_neg hc, ih (fun hm => h (List.mem_cons_of_mem c hm))]

theorem splitOnChar_append_sep {sep : Char} : ∀ {xs : List Char} (ys : List Char), sep ∉ xs →
    splitOnChar sep (xs ++ sep :: ys) = xs :: splitOnChar sep ys := by
  intro xs
  induction xs with
  | nil => intro ys _; rw [List.nil_append, splitOnChar, if_pos rfl]
  | cons c cs ih =>
    intro ys h
    have hc : ¬(c = sep) := fun hcc => h (hcc ▸ List.mem_cons_self c cs)
    rw [List.cons_append, splitOnChar, if_neg hc,
      ih ys (fun hm => h (List.mem_cons_of_mem c hm))]

/-- Stripping a character from a list that starts with one copy of it,
followed by material that neither starts nor ends with it, removes
exactly that leading copy. -/
theorem dropWhile_beq_cons_of_ne {c a : Char} {l : List Char} (h : a ≠ c) :
    (a :: l).dropWhile (fun x => x == c) = a :: l := by
  rw [List.dropWhile_cons]
  simp [h]

theorem dropWhile_beq_cons_self (c : Char) (l : List Char) :
    (c :: l).dropWhile (fun x => x == c) = l.dropWhile (fun x => x == c) := by
  rw [List.dropWhile_cons]
  simp

theorem stripChar_cons_sandwich {c : Char} {o r : List Char} (ho : o ≠ []) (hr : r ≠ [])
    (hco : c ∉ o) (hcr : c ∉ r) :
    stripChar c (c :: (o ++ c :: r)) = o ++ c :: r := by
  obtain ⟨oh, ot, rfl⟩ := List.exists_cons_of_ne_nil ho
  have hoh : oh ≠ c := fun hcc => hco (hcc ▸ List.mem_cons_self oh ot)
  unfold stripChar
  rw [dropWhile_beq_cons_self, List.cons_append, dropWhile_beq_cons_of_ne hoh]
  have hrev : r.reverse ≠ [] := by simpa using hr
  obtain ⟨x, xs, hx⟩ := List.exists_cons_of_ne_nil hrev
  have hxr : x ∈ r := by
    have hxx : x ∈ r.reverse := hx ▸ List.mem_cons_self x xs
    simpa using hxx
  have hxc : x ≠ c := fun hcc => hcr (hcc ▸ hxr)
  have hw : (oh :: (ot ++ c :: r)).reverse = x :: (xs ++ c :: (ot.reverse ++ [oh])) := by
    rw [List.reverse_cons, List.reverse_append, List.reverse_cons, hx]
    simp [List.append_assoc]
  rw [hw, dropWhile_beq_cons_of_ne hxc, ← hw, List.reverse_reverse]

/-- A character list usable as a host or path segment: it contains no
path, query or fragment delimiter. -/
abbrev UrlSafe (l : List Char) : Prop :=
  '/' ∉ l ∧ '?' ∉ l ∧ '#' ∉ l

theorem netlocChar_of_safe {l : List Char} (h : UrlSafe l) : ∀ x ∈ l, netlocChar x = true := by
  intro x hx
  have h1 : x ≠ '/' := fun he => h.1 (he ▸ hx)
  have h2 : x ≠ '?' := fun he => h.2.1 (he ▸ hx)
  have h3 : x ≠ '#' := fun he => h.2.2 (he ▸ hx)
  simp [netlocChar, h1, h2, h3]

theorem queryFree_of_safe {l : List Char} (h : UrlSafe l) : ∀ x ∈ l, queryFree x = true := by
  intro x hx
  have h2 : x ≠ '?' := fun he => h.2.1 (he ▸ hx)
  have h3 : x ≠ '#' := fun he => h.2.2 (he ▸ hx)
  simp [queryFree, h2, h3]

theorem urlparse_well_formed {host owner repo : List Char}
    (hh : ∀ x ∈ host, netlocChar x = true) (hso : UrlSafe owner) (hsr : UrlSafe repo) :
    urlparse ("https://".toList ++ (host ++ ('/' :: (owner ++ ('/' :: repo))))) =
      ⟨"https".toList, host, '/' :: (owner ++ ('/' :: repo))⟩ := by
  show urlparse ("https".toList ++ ':' ::
    ('/' :: '/' :: (host ++ ('/' :: (owner ++ ('/' :: repo)))))) = _
  unfold urlparse schemeSplit
  rw [splitFirstColon_append (by decide)]
  simp only
  rw [show isValidScheme "https".toList = true from rfl]
  simp only [if_true]
  rw [show ("https".toList.map Char.toLower) = "https".toList from rfl]
  rw [show splitNetlocPath ('/' :: '/' :: (host ++ ('/' :: (owner ++ ('/' :: repo))))) =
      ((host ++ ('/' :: (owner ++ ('/' :: repo)))).takeWhile netlocChar,
        ((host ++ ('/' :: (owner ++ ('/' :: repo)))).dropWhile netlocChar).takeWhile queryFree)
    from rfl]
  rw [List.takeWhile_append_of_pos hh, List.dropWhile_append_of_pos hh]
  rw [List.takeWhile_cons_of_neg (by decide : ¬netlocChar '/' = true)]
  rw [List.dropWhile_cons_of_neg (by decide : ¬netlocChar '/' = true)]
  rw [List.takeWhile_eq_self_iff.mpr ?hq]
  case hq =>
    intro x hx
    rcases List.mem_cons.mp hx with h1 | h2
    · subst h1; decide
    · rcases List.mem_append.mp h2 with h3 | h4
      · exact queryFree_of_safe hso x h3
      · rcases List.mem_cons.mp h4 with h5 | h6
        · subst h5; decide
        · exact queryFree_of_safe hsr x h6
  simp

/-- Claim C3 (amended): `validate_repo_url` returns false whenever the
parsed scheme is neither `http` nor `https`, whenever no allow-listed
domain occurs as a substring of the parsed network location, and whenever
the stripped path has a single segment; and it returns true for every URL
`https://<host>/<owner>/<repo>` whose host contains an allow-listed
domain as a substring — in particular for every allow-listed host itself,
but also for unrelated hosts that merely contain one (the code tests
`domain in parsed.netloc`, substring containment, not host equality). -/
theorem validate_repo_url_spec :
    (∀ url : String,
      ¬((urlparse url.toList).scheme = "http".toList ∨
        (urlparse url.toList).scheme = "https".toList) →
      validate_repo_url url = false) ∧
    (∀ url : String,
      (∀ d ∈ valid_domains, containsSub (urlparse url.toList).netloc d = false) →
      validate_repo_url url = false) ∧
    (∀ url : String, '/' ∉ stripChar '/' (urlparse url.toList).path →
      validate_repo_url url = false) ∧
    (∀ host owner repo : List Char,
      (∃ d ∈ valid_domains, containsSub host d = true) →
      owner ≠ [] → repo ≠ [] → UrlSafe host → UrlSafe owner → UrlSafe repo →
      validate_repo_url_chars
        ("https://".toList ++ (host ++ ('/' :: (owner ++ ('/' :: repo))))) = true) := by
  refine ⟨?_, ?_, ?_, ?_⟩
  · intro url h
    simp only [validate_repo_url, validate_repo_url_chars]
    rw [if_neg h]
  · intro url h
    have hany : valid_domains.any (fun d => containsSub (urlparse url.toList).netloc d) = false :=
      List.any_eq_false.mpr (fun d hd => by rw [h d hd]; simp)
    simp only [validate_repo_url, validate_repo_url_chars]
    by_cases hs : (urlparse url.toList).scheme = "http".toList ∨
        (urlparse url.toList).scheme = "https".toList
    · rw [if_pos hs, if_neg (by rw [hany]; simp)]
    · rw [if_neg hs]
  · intro url h
    simp only [validate_repo_url, validate_repo_url_chars]
    by_cases hs : (urlparse url.toList).scheme = "http".toList ∨
        (urlparse url.toList).scheme = "https".toList
    · rw [if_pos hs]
      by_cases ha : valid_domains.any (fun d => containsSub (urlparse url.toList).netloc d) = true
      · rw [if_pos ha, splitOnChar_not_mem h]
        rfl
      · rw [if_neg ha]
    · rw [if_neg hs]
  · intro host owner repo hd ho hr hsh hso hsr
    have hparse := urlparse_well_formed (netlocChar_of_safe hsh) hso hsr
    simp only [validate_repo_url_chars, hparse]
    rw [if_pos (Or.inr trivial)]
    rw [if_pos (List.any_eq_true.mpr (by simpa using hd))]
    rw [stripChar_cons_sandwich ho hr hso.1 hsr.1]
    rw [splitOnChar_append_sep repo hso.1, splitOnChar_not_mem hsr.1]
    rfl

/-- Counterexample to claim C3 as stated: the URL
`https://github.com.evil.com/a/b` has a host that is not in the
allow-list, yet `validate_repo_url` accepts it — the code tests substring
containment (`domain in parsed.netloc`), not membership of the host in
the allow-list. -/
theorem validate_repo_url_counterexample :
    validate_repo_url "https://github.com.evil.com/a/b" = true ∧
    (urlparse "https://github.com.evil.com/a/b".toList).netloc ∉ valid_domains := by
  constructor
  · rfl
  · decide

/-- Witness for the amended C3 at concrete inputs: a well-formed URL on
an allow-listed host is accepted, and a URL without a scheme is
rejected. -/
theorem validate_repo_url_spec_witness :
    validate_repo_url "https://github.com/acme/demo" = true ∧
    validate_repo_url "github.com/acme/demo" = false := by
  constructor
  · have h := validate_repo_url_spec.2.2.2 "github.com".toList "acme".toList "demo".toList
      ⟨"github.com".toList, by decide, containsSub_self _⟩
      (by decide) (by decide) (by decide) (by decide) (by decide)
    rw [validate_repo_url]
    rw [show "https://github.com/acme/demo".toList =
      "https://".toList ++ ("github.com".toList ++
        ('/' :: ("acme".toList ++ ('/' :: "demo".toList)))) from by decide]
    exact h
  · exact validate_repo_url_spec.1 "github.com/acme/demo" (by decide)

/-! ## Backup pruning (`GitRepositorySync.cleanup_old_backups`, git_sync.py lines 302–332)

The Python code lists the entries of the backup directory (the model's
input is the list of its subdirectory names, in listing order — the
`os.path.isdir` filter is applied by the caller of the model), groups
them in a dict keyed by `item.split('_')[0]` (values appended in listing
order, keys in first-appearance order), and for every group longer than
`max_backups` sorts it with `sort(reverse=True)` — Python's stable sort,
descending code-point-lexicographic order on strings, which on the
fixed-width `YYYYMMDD_HHMMSS` timestamp suffix coincides with
newest-first — and calls `shutil.rmtree` on every entry beyond the first
`max_backups`.  The whole body is wrapped in one `try/except` that
re-raises any failure as `GitSyncError`, so the first failing `rmtree`
aborts all remaining deletions.

Entry names are modelled as `List Char` (their code points, as in the
URL section); the `<` order on `List Char` is exactly Python's string
comparison.  Python's `sort(reverse=True)` is modelled by a stable
descending insertion sort: for a total order, a stable sort is unique as
a function, so this is extensionally the code's sort. -/

/-- Group key of a backup directory entry: `item.split('_')[0]`, the text
before the first underscore (the whole name when there is none). -/
def backupGroupKey (item : List Char) : List Char :=
  (splitOnChar '_' item).headD []

/-- One step of building the Python dict `backup_dirs`: append `item` to
the group of key `k`, creating the group at the end on first sight of the
key (dicts preserve key insertion order). -/
def addToGroup : List (List Char × List (List Char)) → List Char → List Char →
    List (List Char × List (List Char))
  | [], k, item => [(k, [item])]
  | (k2, g) :: rest, k, item =>
    if k2 = k then (k2, g ++ [item]) :: rest
    else (k2, g) :: addToGroup rest k item

/-- The dict `backup_dirs` after the grouping loop. -/
def groupBackups (entries : List (List Char)) : List (List Char × List (List Char)) :=
  entries.foldl (fun gs item => addToGroup gs (backupGroupKey item) item) []

/-- Insert `x` into a descending-sorted list, before the first element
not strictly greater than it — so an element inserted later among equals
lands after them, giving stability. -/
def insertDesc (x : List Char) : List (List Char) → List (List Char)
  | [] => [x]
  | y :: ys => if x < y then y :: insertDesc x ys else x :: y :: ys

/-- Python's stable `list.sort(reverse=True)` on strings: the stable
descending sort by code-point-lexicographic order (unique as a function,
here realized as an insertion sort). -/
def sortDesc (l : List (List Char)) : List (List Char) :=
  l.foldr insertDesc []

/-- The entries `cleanup_old_backups` passes to `shutil.rmtree`, in
deletion order: for each group with more than `max_backups` entries, the
entries beyond the first `max_backups` of the descending-sorted group. -/
def pruneTargets (entries : List (List Char)) (max_backups : Nat) : List (List Char) :=
  (groupBackups entries).flatMap (fun g =>
    if max_backups < g.2.length then (sortDesc g.2).drop max_backups else [])

/-- Run the deletions in order; `rmFail x = some e` means
`shutil.rmtree(x)` raises with message `e`.  Returns the entries removed
before any failure, and the first failure message if one occurred (the
loop stops there). -/
def runDeletes (rmFail : List Char → Option (List Char)) :
    List (List Char) → List (List Char) × Option (List Char)
  | [] => ([], none)
  | x :: xs =>
    match rmFail x with
    | some e => ([], some e)
    | none =>
      let r := runDeletes rmFail xs
      (x :: r.1, r.2)

/-- `cleanup_old_backups` (git_sync.py lines 302–332): the entries it
removes together with the `GitSyncError` message it raises when some
deletion fails. -/
def cleanup_old_backups (rmFail : List Char → Option (List Char))
    (entries : List (List Char)) (max_backups : Nat) :
    List (List Char) × Option (List Char) :=
  let r := runDeletes rmFail (pruneTargets entries max_backups)
  (r.1, r.2.map (fun e => "Failed to clean up old backups: ".toList ++ e))

/-- Lookup of a key in the grouping dict (`[]` when absent). -/
def lookupGroup : List (List Char × List (List Char)) → List Char → List (List Char)
  | [], _ => []
  | (k2, g) :: rest, k => if k2 = k then g else lookupGroup rest k

theorem lookupGroup_addToGroup (gs : List (List Char × List (List Char))) (k : List Char)
    (item : List Char) (k2 : List Char) :
    lookupGroup (addToGroup gs k item) k2 =
      if k = k2 then lookupGroup gs k ++ [item] else lookupGroup gs k2 := by
  induction gs with
  | nil =>
    by_cases h : k = k2
    · subst h; simp [addToGroup, lookupGroup]
    · simp [addToGroup, lookupGroup, h]
  | cons p rest ih =>
    obtain ⟨k3, g⟩ := p
    by_cases h3 : k3 = k
    · subst h3
      by_cases h : k3 = k2
      · subst h; simp [addToGroup, lookupGroup]
      · simp [addToGroup, lookupGroup, h]
    · by_cases h1 : k3 = k2
      · subst h1
        have hk : ¬(k = k3) := fun hh => h3 hh.symm
        simp [addToGroup, lookupGroup, h3, hk]
      · simp [addToGroup, lookupGroup, h3, h1, ih]

theorem lookupGroup_foldl (entries : List (List Char)) :
    ∀ (gs : List (List Char × List (List Char))) (k : List Char),
      lookupGroup (entries.foldl (fun gs item => addToGroup gs (backupGroupKey item) item) gs) k =
        lookupGroup gs k ++ entries.filter (fun e => backupGroupKey e = k) := by
  induction entries with
  | nil => intro gs k; simp
  | cons e rest ih =>
    intro gs k
    rw [List.foldl_cons, ih, lookupGroup_addToGroup]
    by_cases h : backupGroupKey e = k
    · rw [if_pos h, List.filter_cons_of_pos (by simp [h]), List.append_assoc, h]
      rfl
    · rw [if_neg h, List.filter_cons_of_neg (by simp [h])]

theorem lookupGroup_groupBackups (entries : List (List Char)) (k : List Char) :
    lookupGroup (groupBackups entries) k = entries.filter (fun e => backupGroupKey e = k) := by
  rw [groupBackups, lookupGroup_foldl]
  rfl

theorem addToGroup_fst (gs : List (List Char × List (List Char))) (k : List Char)
    (item : List Char) :
    (addToGroup gs k item).map Prod.fst =
      if k ∈ gs.map Prod.fst then gs.map Prod.fst else gs.map Prod.fst ++ [k] := by
  induction gs with
  | nil => simp [addToGroup]
  | cons p rest ih =>
    obtain ⟨k2, g⟩ := p
    by_cases h : k2 = k
    · subst h; simp [addToGroup]
    · have hne : ¬(k = k2) := fun hh => h hh.symm
      by_cases hm : k ∈ rest.map Prod.fst
      · simp [addToGroup, h, ih, hm, hne]
      · simp [addToGroup, h, ih, hm, hne]

theorem groupBackups_keys_nodup (entries : List (List Char)) :
    ((groupBackups entries).map Prod.fst).Nodup := by
  suffices h : ∀ (gs : List (List Char × List (List Char))), (gs.map Prod.fst).Nodup →
      (((entries.foldl (fun gs item => addToGroup gs (backupGroupKey item) item) gs)).map
        Prod.fst).Nodup by
    exact h [] (by simp)
  induction entries with
  | nil => intro gs hgs; simpa using hgs
  | cons e rest ih =>
    intro gs hgs
    rw [List.foldl_cons]
    apply ih
    rw [addToGroup_fst]
    by_cases hm : backupGroupKey e ∈ gs.map Prod.fst
    · rw [if_pos hm]; exact hgs
    · rw [if_neg hm]
      apply List.Nodup.append hgs (List.nodup_singleton _)
      intro a ha hb
      rw [List.mem_singleton] at hb
      exact hm (hb ▸ ha)

theorem lookupGroup_of_mem {gs : List (List Char × List (List Char))}
    (hnd : (gs.map Prod.fst).Nodup) {p : List Char × List (List Char)} (hp : p ∈ gs) :
    lookupGroup gs p.1 = p.2 := by
  induction gs with
  | nil => cases hp
  | cons q rest ih =>
    obtain ⟨k2, g⟩ := q
    rcases List.mem_cons.mp hp with rfl | hmem
    · simp [lookupGroup]
    · have hne : ¬(k2 = p.1) := by
        intro hh
        have hmm : p.1 ∈ rest.map Prod.fst := List.mem_map.mpr ⟨p, hmem, rfl⟩
        exact (List.nodup_cons.mp (by simpa using hnd)).1 (hh ▸ hmm)
      rw [lookupGroup, if_neg hne]
      exact ih (List.nodup_cons.mp (by simpa using hnd)).2 hmem

theorem mem_of_lookupGroup_ne_nil {gs : List (List Char × List (List Char))} {k : List Char}
    (h : lookupGroup gs k ≠ []) : (k, lookupGroup gs k) ∈ gs := by
  induction gs with
  | nil => simp [lookupGroup] at h
  | cons q rest ih =>
    obtain ⟨k2, g⟩ := q
    by_cases h2 : k2 = k
    · subst h2
      rw [lookupGroup, if_pos rfl]
      exact List.mem_cons_self _ _
    · rw [lookupGroup, if_neg h2] at h
      rw [lookupGroup, if_neg h2]
      exact List.mem_cons_of_mem _ (ih h)

theorem insertDesc_perm (x : List Char) (l : List (List Char)) :
    (insertDesc x l).Perm (x :: l) := by
  induction l with
  | nil => simp [insertDesc]
  | cons y ys ih =>
    rw [insertDesc]
    by_cases h : x < y
    · rw [if_pos h]
      exact (ih.cons y).trans (List.Perm.swap x y ys)
    · rw [if_neg h]

theorem insertDesc_pairwise {x : List Char} {l : List (List Char)}
    (hl : l.Pairwise (fun a b => b ≤ a)) :
    (insertDesc x l).Pairwise (fun a b => b ≤ a) := by
  induction l with
  | nil => simp [insertDesc]
  | cons y ys ih =>
    obtain ⟨hy, hys⟩ := List.pairwise_cons.mp hl
    rw [insertDesc]
    by_cases h : x < y
    · rw [if_pos h]
      apply List.pairwise_cons.mpr
      refine ⟨?_, ih hys⟩
      intro z hz
      rcases List.mem_cons.mp ((insertDesc_perm x ys).mem_iff.mp hz) with rfl | hzys
      · exact le_of_lt h
      · exact hy z hzys
    · rw [if_neg h]
      apply List.pairwise_cons.mpr
      refine ⟨?_, hl⟩
      intro z hz
      rcases List.mem_cons.mp hz with rfl | hzys
      · exact not_lt.mp h
      · exact le_trans (hy z hzys) (not_lt.mp h)

theorem sortDesc_perm (l : List (List Char)) : (sortDesc l).Perm l := by
  induction l with
  | nil => simp [sortDesc]
  | cons x xs ih =>
    rw [sortDesc, List.foldr_cons]
    exact (insertDesc_perm x _).trans (ih.cons x)

theorem sortDesc_pairwise (l : List (List Char)) :
    (sortDesc l).Pairwise (fun a b => b ≤ a) := by
  induction l with
  | nil => simp [sortDesc]
  | cons x xs ih =>
    rw [sortDesc, List.foldr_cons]
    exact insertDesc_pairwise ih

theorem sortDesc_pairwise_gt {l : List (List Char)} (h : l.Nodup) :
    (sortDesc l).Pairwise (fun a b => b < a) := by
  have hs := sortDesc_pairwise l
  have hn : (sortDesc l).Nodup := ((sortDesc_perm l).nodup_iff).mpr h
  exact (hs.and hn).imp
    (fun hab => lt_of_le_of_ne hab.1 (Ne.symm hab.2))

theorem mem_drop_sorted_iff {s : List (List Char)} (hs : s.Pairwise (fun a b => b < a)) :
    ∀ (K : Nat) (x : List Char),
      x ∈ s.drop K ↔ x ∈ s ∧ K ≤ (s.filter (fun y => decide (x < y))).length := by
  induction s with
  | nil => intro K x; simp
  | cons a t ih =>
    intro K x
    have ha : ∀ y ∈ t, y < a := fun y hy => (List.pairwise_cons.mp hs).1 y hy
    have ht := (List.pairwise_cons.mp hs).2
    cases K with
    | zero => simp
    | succ K =>
      rw [List.drop_succ_cons, ih ht K x]
      constructor
      · rintro ⟨hxt, hc⟩
        have hxa : x < a := ha x hxt
        refine ⟨List.mem_cons_of_mem a hxt, ?_⟩
        rw [List.filter_cons_of_pos (by simpa using hxa)]
        simpa using Nat.succ_le_succ hc
      · rintro ⟨hx, hc⟩
        rcases List.mem_cons.mp hx with rfl | hxt
        · exfalso
          rw [List.filter_cons_of_neg (by simp)] at hc
          have hnil : t.filter (fun y => decide (x < y)) = [] := by
            apply List.filter_eq_nil_iff.mpr
            intro y hy
            simp only [decide_eq_true_eq]
            exact not_lt.mpr (le_of_lt (ha y hy))
          rw [hnil] at hc
          simp at hc
        · have hxa : x < a := ha x hxt
          rw [List.filter_cons_of_pos (by simpa using hxa), List.length_cons] at hc
          exact ⟨hxt, by omega⟩

/-- Membership characterization of the deletion targets: an entry is
deleted exactly when more than `max_backups` entries share its group key
and at least `max_backups` entries of its group are lexicographically
greater (i.e. it is beyond the first `max_backups` of the
descending-sorted group). -/
theorem pruneTargets_mem_iff (entries : List (List Char)) (K : Nat) (hnd : entries.Nodup)
    (e : List Char) :
    e ∈ pruneTargets entries K ↔
      e ∈ entries ∧
      K < (entries.filter (fun x => backupGroupKey x = backupGroupKey e)).length ∧
      K ≤ ((entries.filter (fun x => backupGroupKey x = backupGroupKey e)).filter
            (fun y => decide (e < y))).length := by
  constructor
  · intro hm
    obtain ⟨p, hp, hpe⟩ := List.mem_flatMap.mp hm
    by_cases hlen : K < p.2.length
    case neg => rw [if_neg hlen] at hpe; cases hpe
    rw [if_pos hlen] at hpe
    have hpg : p.2 = entries.filter (fun x => backupGroupKey x = p.1) := by
      have h1 := lookupGroup_of_mem (groupBackups_keys_nodup entries) hp
      rw [lookupGroup_groupBackups] at h1
      exact h1.symm
    have hG2 : e ∈ p.2 :=
      (sortDesc_perm p.2).mem_iff.mp (List.mem_of_mem_drop hpe)
    have hkey : backupGroupKey e = p.1 := by
      have hf := hpg ▸ hG2
      simpa using (List.mem_filter.mp hf).2
    have hGp : entries.filter (fun x => backupGroupKey x = backupGroupKey e) = p.2 := by
      rw [hpg, hkey]
    have hnd2 : p.2.Nodup := hpg ▸ hnd.filter _
    have h2 := (mem_drop_sorted_iff (sortDesc_pairwise_gt hnd2) K e).mp hpe
    refine ⟨?_, ?_, ?_⟩
    · exact List.mem_of_mem_filter (hpg ▸ hG2)
    · rw [hGp]; exact hlen
    · rw [hGp]
      calc K ≤ ((sortDesc p.2).filter (fun y => decide (e < y))).length := h2.2
        _ = (p.2.filter (fun y => decide (e < y))).length :=
          ((sortDesc_perm p.2).filter _).length_eq
  · rintro ⟨he, hlen, hcount⟩
    have heG : e ∈ entries.filter (fun x => backupGroupKey x = backupGroupKey e) :=
      List.mem_filter.mpr ⟨he, by simp⟩
    have h0 : lookupGroup (groupBackups entries) (backupGroupKey e) ≠ [] := by
      rw [lookupGroup_groupBackups]
      exact List.ne_nil_of_mem heG
    have hpmem := mem_of_lookupGroup_ne_nil h0
    rw [lookupGroup_groupBackups] at hpmem
    apply List.mem_flatMap.mpr
    refine ⟨(backupGroupKey e, entries.filter (fun x => backupGroupKey x = backupGroupKey e)),
      hpmem, ?_⟩
    rw [if_pos hlen]
    have hndG : (entries.filter (fun x => backupGroupKey x = backupGroupKey e)).Nodup :=
      hnd.filter _
    apply (mem_drop_sorted_iff (sortDesc_pairwise_gt hndG) K e).mpr
    refine ⟨(sortDesc_perm _).mem_iff.mpr heG, ?_⟩
    rw [((sortDesc_perm _).filter _).length_eq]
    exact hcount

theorem runDeletes_all_ok {rmFail : List Char → Option (List Char)} :
    ∀ {l : List (List Char)}, (∀ x ∈ l, rmFail x = none) → runDeletes rmFail l = (l, none) := by
  intro l
  induction l with
  | nil => intro _; rfl
  | cons x xs ih =>
    intro h
    rw [runDeletes, h x (List.mem_cons_self x xs),
      ih (fun y hy => h y (List.mem_cons_of_mem x hy))]

theorem runDeletes_first_failure {rmFail : List Char → Option (List Char)}
    (pre : List (List Char)) (x : List Char) (post : List (List Char)) (e : List Char)
    (hpre : ∀ y ∈ pre, rmFail y = none) (hx : rmFail x = some e) :
    runDeletes rmFail (pre ++ x :: post) = (pre, some e) := by
  induction pre with
  | nil => rw [List.nil_append, runDeletes, hx]
  | cons y ys ih =>
    rw [List.cons_append, runDeletes, hpre y (List.mem_cons_self y ys),
      ih (fun z hz => hpre z (List.mem_cons_of_mem y hz))]

theorem groupBackups_single (κ : List Char) :
    ∀ (entries : List (List Char)) (acc : List (List Char)),
      (∀ e ∈ entries, backupGroupKey e = κ) →
      entries.foldl (fun gs item => addToGroup gs (backupGroupKey item) item) [(κ, acc)] =
        [(κ, acc ++ entries)] := by
  intro entries
  induction entries with
  | nil => intro acc _; simp
  | cons e rest ih =>
    intro acc h
    rw [List.foldl_cons, h e (List.mem_cons_self e rest)]
    rw [show addToGroup [(κ, acc)] κ e = [(κ, acc ++ [e])] from by simp [addToGroup]]
    rw [ih (acc ++ [e]) (fun x hx => h x (List.mem_cons_of_mem e hx))]
    simp

theorem groupBackups_of_const_key {κ : List Char} {entries : List (List Char)}
    (h : ∀ e ∈ entries, backupGroupKey e = κ) (hne : entries ≠ []) :
    groupBackups entries = [(κ, entries)] := by
  obtain ⟨e, rest, rfl⟩ := List.exists_cons_of_ne_nil hne
  rw [groupBackups, List.foldl_cons, h e (List.mem_cons_self e rest)]
  rw [show addToGroup [] κ e = [(κ, [e])] from rfl]
  rw [groupBackups_single κ rest [e] (fun x hx => h x (List.mem_cons_of_mem e hx))]
  simp

theorem length_filter_lt_of_mem_not_mem {l : List (List Char)} {e : List Char}
    {p : List Char → Bool} (he : e ∈ l) (hp : p e = false) :
    (l.filter p).length < l.length := by
  rcases Nat.lt_or_ge (l.filter p).length l.length with h | h
  · exact h
  · exfalso
    have hs : (l.filter p).Sublist l := List.filter_sublist l
    have heq : l.filter p = l := hs.eq_of_length (le_antisymm hs.length_le h)
    have : p e = true := List.of_mem_filter (heq ▸ he)
    rw [hp] at this
    cases this

theorem lex_append_left_iff (p : List Char) (u v : List Char) :
    p ++ u < p ++ v ↔ u < v := by
  induction p with
  | nil => simp
  | cons c cs ih =>
    show List.Lex (· < ·) (c :: (cs ++ u)) (c :: (cs ++ v)) ↔ u < v
    rw [List.Lex.cons_iff]
    exact ih

theorem backupGroupKey_stamp {name : List Char} (t : List Char) (h : '_' ∉ name) :
    backupGroupKey (name ++ '_' :: t) = name := by
  rw [backupGroupKey, splitOnChar_append_sep t h]
  rfl

theorem stamp_lt_iff (name t u : List Char) :
    name ++ '_' :: t < name ++ '_' :: u ↔ t < u := by
  have h1 : name ++ '_' :: t = (name ++ ['_']) ++ t := by simp
  have h2 : name ++ '_' :: u = (name ++ ['_']) ++ u := by simp
  rw [h1, h2, lex_append_left_iff]

/-- Claim C4: `cleanup_old_backups` groups the backup directory entries
by the prefix before the first underscore, orders each group descending
(lexicographically on the full name; on `name_YYYYMMDD_HHMMSS` entries of
one repository this is descending by the embedded timestamp, since the
timestamp format is fixed-width), and — when every deletion succeeds —
deletes exactly the entries beyond the first `max_backups` of each group:
for a single repository with `n` snapshots, the `n - maxKeep` snapshots
with the oldest timestamps are removed and the `maxKeep` newest remain. -/
theorem cleanup_old_backups_spec :
    (∀ (entries : List (List Char)) (K : Nat), entries.Nodup →
      (cleanup_old_backups (fun _ => none) entries K).2 = none ∧
      (∀ e, e ∈ (cleanup_old_backups (fun _ => none) entries K).1 ↔
        e ∈ entries ∧
        K < (entries.filter (fun x => backupGroupKey x = backupGroupKey e)).length ∧
        K ≤ ((entries.filter (fun x => backupGroupKey x = backupGroupKey e)).filter
              (fun y => decide (e < y))).length)) ∧
    (∀ (name : List Char) (stamps : List (List Char)) (K : Nat),
      '_' ∉ name → stamps.Nodup →
      ((cleanup_old_backups (fun _ => none) (stamps.map (fun t => name ++ '_' :: t)) K).1.length
          = stamps.length - K) ∧
      (∀ t ∈ stamps,
        (name ++ '_' :: t) ∈
            (cleanup_old_backups (fun _ => none) (stamps.map (fun t => name ++ '_' :: t)) K).1 ↔
          K ≤ (stamps.filter (fun u => decide (t < u))).length)) := by
  have hclean : ∀ entries K,
      cleanup_old_backups (fun _ => none) entries K = (pruneTargets entries K, none) := by
    intro entries K
    rw [cleanup_old_backups, runDeletes_all_ok (fun x _ => rfl)]
    rfl
  constructor
  · intro entries K hnd
    rw [hclean]
    exact ⟨rfl, fun e => pruneTargets_mem_iff entries K hnd e⟩
  · intro name stamps K hname hnd
    rw [hclean]
    rcases eq_or_ne stamps [] with rfl | hne
    · simp [pruneTargets, groupBackups]
    have hkeys : ∀ e ∈ stamps.map (fun t => name ++ '_' :: t), backupGroupKey e = name := by
      intro e he
      obtain ⟨t, _, rfl⟩ := List.mem_map.mp he
      exact backupGroupKey_stamp t hname
    have hmapne : stamps.map (fun t => name ++ '_' :: t) ≠ [] := by
      simpa using hne
    have hinj : Function.Injective (fun t : List Char => name ++ '_' :: t) := by
      intro a b hab
      have h2 := List.append_cancel_left hab
      simpa using h2
    have hndm : (stamps.map (fun t => name ++ '_' :: t)).Nodup := hnd.map hinj
    have htargets : pruneTargets (stamps.map (fun t => name ++ '_' :: t)) K =
        if K < (stamps.map (fun t => name ++ '_' :: t)).length then
          (sortDesc (stamps.map (fun t => name ++ '_' :: t))).drop K
        else [] := by
      rw [pruneTargets, groupBackups_of_const_key hkeys hmapne]
      simp
    constructor
    · rw [htargets]
      by_cases hK : K < (stamps.map (fun t => name ++ '_' :: t)).length
      · rw [if_pos hK, List.length_drop, (sortDesc_perm _).length_eq, List.length_map]
      · rw [if_neg hK]
        rw [List.length_map] at hK
        simp only [List.length_nil]
        omega
    · intro t ht
      rw [pruneTargets_mem_iff _ K hndm]
      have hmem : (name ++ '_' :: t) ∈ stamps.map (fun t => name ++ '_' :: t) :=
        List.mem_map.mpr ⟨t, ht, rfl⟩
      have hfilterall : (stamps.map (fun t => name ++ '_' :: t)).filter
          (fun x => backupGroupKey x = backupGroupKey (name ++ '_' :: t)) =
          stamps.map (fun t => name ++ '_' :: t) := by
        apply List.filter_eq_self.mpr
        intro x hx
        rw [hkeys x hx, backupGroupKey_stamp t hname]
        simp
      have hcnt : ((stamps.map (fun t => name ++ '_' :: t)).filter
            (fun y => decide (name ++ '_' :: t < y))).length =
          (stamps.filter (fun u => decide (t < u))).length := by
        rw [← List.countP_eq_length_filter, ← List.countP_eq_length_filter, List.countP_map]
        apply List.countP_congr
        intro u _
        simp only [Function.comp_apply, decide_eq_true_eq]
        exact stamp_lt_iff name t u
      rw [hfilterall, hcnt]
      constructor
      · rintro ⟨_, _, hc⟩
        exact hc
      · intro hc
        refine ⟨hmem, ?_, hc⟩
        have hlt : ((stamps.map (fun t => name ++ '_' :: t)).filter
            (fun y => decide (name ++ '_' :: t < y))).length <
            (stamps.map (fun t => name ++ '_' :: t)).length :=
          length_filter_lt_of_mem_not_mem hmem (by simp)
        rw [hcnt] at hlt
        omega

/-- Seven snapshot timestamps of one repository, in scrambled listing
order, for the C4 witness. -/
def stampsW : List (List Char) :=
  ["20240107_120000".toList, "20240103_120000".toList, "20240101_120000".toList,
   "20240105_120000".toList, "20240102_120000".toList, "20240106_120000".toList,
   "20240104_120000".toList]

/-- The corresponding backup directory entries `demo_<timestamp>`. -/
def entriesW : List (List Char) :=
  stampsW.map (fun t => "demo".toList ++ '_' :: t)

/-- Witness for C4 at a concrete input: seven snapshots of `demo` with
`max_backups = 5` — exactly the two oldest are removed, the five newest
remain. -/
theorem cleanup_old_backups_spec_witness :
    "demo_20240101_120000".toList ∈ (cleanup_old_backups (fun _ => none) entriesW 5).1 ∧
    "demo_20240102_120000".toList ∈ (cleanup_old_backups (fun _ => none) entriesW 5).1 ∧
    (cleanup_old_backups (fun _ => none) entriesW 5).1.length = 2 ∧
    "demo_20240103_120000".toList ∉ (cleanup_old_backups (fun _ => none) entriesW 5).1 := by
  have h := cleanup_old_backups_spec.2 "demo".toList stampsW 5 (by decide) (by decide)
  refine ⟨?_, ?_, ?_, ?_⟩
  · have hm := (h.2 "20240101_120000".toList (by decide)).mpr (by decide)
    rw [show "demo_20240101_120000".toList =
      "demo".toList ++ '_' :: "20240101_120000".toList from by decide]
    exact hm
  · have hm := (h.2 "20240102_120000".toList (by decide)).mpr (by decide)
    rw [show "demo_20240102_120000".toList =
      "demo".toList ++ '_' :: "20240102_120000".toList from by decide]
    exact hm
  · exact h.1.trans (by decide)
  · intro hmem
    rw [show "demo_20240103_120000".toList =
      "demo".toList ++ '_' :: "20240103_120000".toList from by decide] at hmem
    have hc := (h.2 "20240103_120000".toList (by decide)).mp hmem
    revert hc
    decide

/-- Deletion failure for the C9 counterexample: `rmtree` raises on the
first deletion target `a_1` and succeeds everywhere else. -/
def rmFailW : List Char → Option (List Char) :=
  fun x => if x = "a_1".toList then some "boom".toList else none

/-- Counterexample to claim C9 as stated: with two groups each holding a
stale entry (`a_1` and `b_1`, `max_backups = 1`), a failing deletion of
`a_1` makes `cleanup_old_backups` raise `GitSyncError` and skip the
deletion of `b_1` — pruning is not best-effort per entry: nothing after
the first failure is deleted and the prune operation as a whole fails. -/
theorem cleanup_best_effort_counterexample :
    cleanup_old_backups rmFailW
        ["a_2".toList, "a_1".toList, "b_2".toList, "b_1".toList] 1 =
      ([], some "Failed to clean up old backups: boom".toList) ∧
    "b_1".toList ∈ pruneTargets ["a_2".toList, "a_1".toList, "b_2".toList, "b_1".toList] 1 ∧
    "b_1".toList ∉ (cleanup_old_backups rmFailW
        ["a_2".toList, "a_1".toList, "b_2".toList, "b_1".toList] 1).1 := by
  refine ⟨by decide, by decide, by decide⟩

/-- Claim C9 (amended): deletion in `cleanup_old_backups` is fail-fast,
not best-effort: when every deletion succeeds, exactly the computed
targets are removed and no error is raised; but the first failing
deletion aborts pruning — no later target is deleted, in the same group
or in any other group, and the whole call raises a `GitSyncError`
wrapping the failure. -/
theorem cleanup_old_backups_failure_spec :
    (∀ (rmFail : List Char → Option (List Char)) (entries : List (List Char)) (K : Nat),
      (∀ x ∈ pruneTargets entries K, rmFail x = none) →
      cleanup_old_backups rmFail entries K = (pruneTargets entries K, none)) ∧
    (∀ (rmFail : List Char → Option (List Char)) (entries : List (List Char)) (K : Nat)
      (pre : List (List Char)) (x : List Char) (post : List (List Char)) (e : List Char),
      pruneTargets entries K = pre ++ x :: post →
      (∀ y ∈ pre, rmFail y = none) → rmFail x = some e →
      cleanup_old_backups rmFail entries K =
        (pre, some ("Failed to clean up old backups: ".toList ++ e))) := by
  constructor
  · intro rmFail entries K h
    rw [cleanup_old_backups, runDeletes_all_ok h]
    rfl
  · intro rmFail entries K pre x post e htargets hpre hx
    rw [cleanup_old_backups, htargets, runDeletes_first_failure pre x post e hpre hx]
    rfl

/-- Witness for the amended C9 at the concrete two-group input: with no
failures both stale entries are removed; with `a_1` failing, nothing is
removed and the error wraps the failure message. -/
theorem cleanup_old_backups_failure_spec_witness :
    cleanup_old_backups (fun _ => none)
        ["a_2".toList, "a_1".toList, "b_2".toList, "b_1".toList] 1 =
      (["a_1".toList, "b_1".toList], none) ∧
    cleanup_old_backups rmFailW
        ["a_2".toList, "a_1".toList, "b_2".toList, "b_1".toList] 1 =
      ([], some "Failed to clean up old backups: boom".toList) := by
  constructor
  · have h := cleanup_old_backups_failure_spec.1 (fun _ => none)
      ["a_2".toList, "a_1".toList, "b_2".toList, "b_1".toList] 1 (fun x _ => rfl)
    rw [h]
    decide
  · have h := cleanup_old_backups_failure_spec.2 rmFailW
      ["a_2".toList, "a_1".toList, "b_2".toList, "b_1".toList] 1
      [] "a_1".toList ["b_1".toList] "boom".toList (by decide) (by decide)
      (by decide)
    exact h

/-! ## Version-control adapter (git_sync.py lines 96–245)

`clone_repository`, `sync_repository` and `backup_repository` over an
explicit environment: each Git/filesystem primitive the code may invoke
repeatedly under retry is a function `Nat → Except String Unit` giving
the outcome of its `i`-th invocation; `branch`, `headCommit` and the two
clock reads are environment data.  Each adapter call wraps its underlying
operation with `retry_operation` *internally* (git_sync.py lines 136, 187
and 237), so one adapter call can invoke the underlying primitive up to
`max_retries` times.

For `clone_repository` the state of `local_path` is tracked as an
abstract `PathState`: the code removes pre-existing content, recreates
the directory, clones into it, and on any failure removes the directory
again before re-raising (lines 120–125 and 146–148). -/

/-- Abstract state of the content at a destination path. -/
inductive PathState where
  | absent
  | preexisting
  | freshDir
  | incomplete
  | cloned
  deriving DecidableEq

/-- `os.path.exists` on the abstract path state. -/
def pathExists : PathState → Bool
  | .absent => false
  | _ => true

/-- `shutil.rmtree`: afterwards nothing is at the path. -/
def rmtree (_ : PathState) : PathState := .absent

/-- `os.makedirs(path, exist_ok=True)`. -/
def makedirs : PathState → PathState
  | .absent => .freshDir
  | s => s

/-- Environment of one adapter call: outcomes of the `i`-th invocation of
each underlying primitive, plus repository metadata and clock reads. -/
structure GitEnv where
  max_retries : Nat
  cloneAttempt : Nat → Except String Unit
  openRepo : Except String Unit
  fetchPullAttempt : Nat → Except String Unit
  branch : String
  headCommit : String
  nowIso : String
  nowStamp : String
  copyAttempt : Nat → Except String Unit
  base_backup_dir : String

/-- `str(e)` for the `GitSyncError` raised by `retry_operation`
(`last_error` is `None` when the loop body never ran). -/
def pyStrOption : Option String → String
  | none => "None"
  | some s => s

/-- Message of the `GitSyncError` raised when the retry budget is
exhausted. -/
def retryMsg (maxRetries : Nat) (lastError : Option String) : String :=
  "Operation failed after " ++ toString maxRetries ++ " attempts: " ++ pyStrOption lastError

/-- A Python dict as returned by `sync_repository` /
`process_repository` / `sync_multiple_repositories`. -/
structure ResultDict where
  status : String
  timestamp : Option String := none
  branch : Option String := none
  latest_commit : Option String := none
  error : Option String := none
  backup_path : Option String := none
  deriving DecidableEq

/-- Result of one `clone_repository` call: the returned value or raised
`GitSyncError`, the number of invocations of the underlying
`git.Repo.clone_from`, and the final state of `local_path`. -/
structure CloneResult where
  result : Except String Bool
  vcsCalls : Nat
  finalPath : PathState

/-- `clone_repository` (git_sync.py lines 96–149): validate the URL,
wipe any pre-existing content at `local_path`, recreate the directory,
clone under `retry_operation`; on any failure remove `local_path`
entirely and raise `GitSyncError` wrapping the cause. -/
def clone_repository (env : GitEnv) (repo_url : String) (initial : PathState) : CloneResult :=
  if validate_repo_url repo_url then
    let s1 := if pathExists initial then rmtree initial else initial
    let _s2 := makedirs s1
    let t := retryAux env.cloneAttempt env.max_retries 0 [] 0
    match t.result with
    | .ok _ => ⟨.ok true, t.calls, .cloned⟩
    | .error e =>
      let s3 : PathState := .incomplete
      let s4 := if pathExists s3 then rmtree s3 else s3
      ⟨.error ("Failed to clone repository: " ++ retryMsg env.max_retries e), t.calls, s4⟩
  else
    let s4 := if pathExists initial then rmtree initial else initial
    ⟨.error ("Failed to clone repository: " ++ ("Invalid repository URL: " ++ repo_url)),
      0, s4⟩

/-- `sync_repository` (git_sync.py lines 151–205): open the repository
(`git.Repo` may raise), fetch-and-pull under `retry_operation`; failures
are returned as a `failed` dict, never raised.  Also returns the number
of invocations of the underlying fetch-and-pull. -/
def sync_repository (env : GitEnv) : ResultDict × Nat :=
  match env.openRepo with
  | .error e => ({status := "failed", error := some e}, 0)
  | .ok _ =>
    let t := retryAux env.fetchPullAttempt env.max_retries 0 [] 0
    match t.result with
    | .ok _ =>
      ({status := "success", timestamp := some env.nowIso, branch := some env.branch,
        latest_commit := some env.headCommit}, t.calls)
    | .error e =>
      ({status := "failed", error := some (retryMsg env.max_retries e)}, t.calls)

/-- `backup_repository` (git_sync.py lines 207–245): copy the tree to
`{base_backup_dir}/{repo_name}_{timestamp}` under `retry_operation`; on
failure raise `GitSyncError` wrapping the cause. -/
def backup_repository (env : GitEnv) (repo_name : String) : Except String String :=
  let backup_path := env.base_backup_dir ++ "/" ++ repo_name ++ "_" ++ env.nowStamp
  let t := retryAux env.copyAttempt env.max_retries 0 [] 0
  match t.result with
  | .ok _ => .ok backup_path
  | .error e =>
    .error ("Error creating backup for " ++ repo_name ++ ": " ++ retryMsg env.max_retries e)

theorem retry_first_ok {ε α : Type} (op : Nat → Except ε α) (mr : Nat) (h : 1 ≤ mr) {a : α}
    (hop : op 0 = .ok a) : retryAux op mr 0 [] 0 = ⟨.ok a, [], 1⟩ := by
  have h2 := retryAux_ok op mr 0 0 [] 0 (by omega)
    (fun i h1 h2 => absurd h2 (by omega)) a hop
  simpa using h2

/-- Claim C5 (amended): the adapter operations wrap the underlying VCS
operation with the Retry Executor *internally*: a single
`clone_repository` or `sync_repository` call performs up to `max_retries`
invocations of the underlying operation — `k + 1` of them when the first
`k` invocations fail and the next succeeds — not exactly one. -/
theorem adapter_retries_internally :
    (∀ (env : GitEnv) (url : String) (initial : PathState),
      (clone_repository env url initial).vcsCalls ≤ env.max_retries) ∧
    (∀ env : GitEnv, (sync_repository env).2 ≤ env.max_retries) ∧
    (∀ (env : GitEnv) (url : String) (initial : PathState) (k : Nat),
      validate_repo_url url = true → k < env.max_retries →
      (∀ i, i < k → ∃ e, env.cloneAttempt i = .error e) → env.cloneAttempt k = .ok () →
      (clone_repository env url initial).result = .ok true ∧
      (clone_repository env url initial).vcsCalls = k + 1) ∧
    (∀ (env : GitEnv) (k : Nat),
      env.openRepo = .ok () → k < env.max_retries →
      (∀ i, i < k → ∃ e, env.fetchPullAttempt i = .error e) → env.fetchPullAttempt k = .ok () →
      (sync_repository env).1.status = "success" ∧ (sync_repository env).2 = k + 1) := by
  have hle : ∀ {ε α : Type} (op : Nat → Except ε α) (mr : Nat),
      (retryAux op mr 0 [] 0).calls ≤ mr := fun op mr => by
    simpa using retryAux_calls_le op mr mr 0 [] 0 (by omega)
  refine ⟨?_, ?_, ?_, ?_⟩
  · intro env url initial
    rw [clone_repository]
    by_cases hv : validate_repo_url url = true
    · rw [if_pos hv]
      simp only
      cases ht : (retryAux env.cloneAttempt env.max_retries 0 [] 0).result with
      | ok a => simpa [ht] using hle env.cloneAttempt env.max_retries
      | error e => simpa [ht] using hle env.cloneAttempt env.max_retries
    · rw [if_neg hv]
      simp
  · intro env
    rw [sync_repository]
    cases env.openRepo with
    | error e => simp
    | ok u =>
      simp only
      cases ht : (retryAux env.fetchPullAttempt env.max_retries 0 [] 0).result with
      | ok a => simpa [ht] using hle env.fetchPullAttempt env.max_retries
      | error e => simpa [ht] using hle env.fetchPullAttempt env.max_retries
  · intro env url initial k hv hk hfail hok
    have ht := retryAux_ok env.cloneAttempt env.max_retries k 0 [] 0 (by omega)
      (fun i _ h2 => hfail i (by omega)) () (by simpa using hok)
    rw [clone_repository, if_pos hv]
    simp only [ht]
    constructor <;> simp
  · intro env k hopen hk hfail hok
    have ht := retryAux_ok env.fetchPullAttempt env.max_retries k 0 [] 0 (by omega)
      (fun i _ h2 => hfail i (by omega)) () (by simpa using hok)
    rw [sync_repository, hopen]
    simp only [ht]
    constructor <;> simp

/-- Environment for the C5 counterexample and witness: the underlying
clone fails on its first invocation and succeeds on its second. -/
def envRetryW : GitEnv where
  max_retries := 3
  cloneAttempt := fun i => if i = 0 then .error "connection reset" else .ok ()
  openRepo := .ok ()
  fetchPullAttempt := fun i => if i = 0 then .error "connection reset" else .ok ()
  branch := "main"
  headCommit := "abc123"
  nowIso := "2024-01-01T12:00:00"
  nowStamp := "20240101_120000"
  copyAttempt := fun _ => .ok ()
  base_backup_dir := "temp_backups"

/-- Counterexample to claim C5 as stated: one `clone_repository` call
whose underlying VCS clone fails once then succeeds performs two
invocations of the underlying operation, not exactly one — the retry
wrapping sits inside the adapter (git_sync.py line 136), not at the
orchestrator layer. -/
theorem adapter_single_attempt_counterexample :
    (clone_repository envRetryW "https://github.com/acme/demo" .absent).vcsCalls = 2 ∧
    (clone_repository envRetryW "https://github.com/acme/demo" .absent).result = .ok true ∧
    (sync_repository envRetryW).2 = 2 ∧
    ¬((clone_repository envRetryW "https://github.com/acme/demo" .absent).vcsCalls = 1) := by
  have hv : validate_repo_url "https://github.com/acme/demo" = true := by rfl
  have ht := retryAux_ok envRetryW.cloneAttempt 3 1 0 [] 0 (by omega)
    (fun i h1 h2 => ⟨"connection reset", by
      rw [show envRetryW.cloneAttempt i = if i = 0 then .error "connection reset" else .ok ()
        from rfl, if_pos (by omega)]⟩)
    () (by rfl)
  have ht2 := retryAux_ok envRetryW.fetchPullAttempt 3 1 0 [] 0 (by omega)
    (fun i h1 h2 => ⟨"connection reset", by
      rw [show envRetryW.fetchPullAttempt i = if i = 0 then .error "connection reset" else .ok ()
        from rfl, if_pos (by omega)]⟩)
    () (by rfl)
  have hc : clone_repository envRetryW "https://github.com/acme/demo" .absent =
      ⟨.ok true, 2, .cloned⟩ := by
    rw [clone_repository, if_pos hv]
    simp only [show envRetryW.max_retries = 3 from rfl, ht]
  have hs : sync_repository envRetryW =
      ({status := "success", timestamp := some "2024-01-01T12:00:00", branch := some "main",
        latest_commit := some "abc123"}, 2) := by
    rw [sync_repository, show envRetryW.openRepo = .ok () from rfl]
    simp only [show envRetryW.max_retries = 3 from rfl, ht2]
    rfl
  rw [hc, hs]
  exact ⟨rfl, rfl, rfl, by simp⟩

/-- Witness for the amended C5: with the concrete fail-once environment,
the adapter performs two internal attempts of clone and of
fetch-and-pull, within the `max_retries` bound. -/
theorem adapter_retries_internally_witness :
    (clone_repository envRetryW "https://github.com/acme/demo" .absent).vcsCalls ≤ 3 ∧
    (clone_repository envRetryW "https://github.com/acme/demo" .absent).vcsCalls = 2 ∧
    (sync_repository envRetryW).1.status = "success" ∧ (sync_repository envRetryW).2 = 2 := by
  have h1 := adapter_retries_internally.1 envRetryW "https://github.com/acme/demo" .absent
  have h3 := adapter_retries_internally.2.2.1 envRetryW "https://github.com/acme/demo" .absent 1
    (by rfl) (by decide)
    (fun i hi => ⟨"connection reset", by
      rw [show envRetryW.cloneAttempt i = if i = 0 then .error "connection reset" else .ok ()
        from rfl, if_pos (by omega)]⟩)
    (by rfl)
  have h4 := adapter_retries_internally.2.2.2 envRetryW 1 (by rfl) (by decide)
    (fun i hi => ⟨"connection reset", by
      rw [show envRetryW.fetchPullAttempt i = if i = 0 then .error "connection reset" else .ok ()
        from rfl, if_pos (by omega)]⟩)
    (by rfl)
  refine ⟨?_, h3.2, h4.1, h4.2⟩
  rw [show envRetryW.max_retries = 3 from rfl] at h1
  exact h1

/-- Claim C8: `clone_repository` has clean-slate semantics — its outcome
does not depend on what was at the destination before the call (any
pre-existing content is removed first) — and on any failure it removes
the destination entirely before surfacing the error, so no incomplete
state remains; on success a fresh clone is what remains. -/
theorem clone_repository_clean_slate :
    (∀ (env : GitEnv) (url : String) (initial : PathState),
      clone_repository env url initial = clone_repository env url .absent) ∧
    (∀ (env : GitEnv) (url : String) (initial : PathState) (e : String),
      (clone_repository env url initial).result = .error e →
      (clone_repository env url initial).finalPath = .absent) ∧
    (∀ (env : GitEnv) (url : String) (initial : PathState) (b : Bool),
      (clone_repository env url initial).result = .ok b →
      (clone_repository env url initial).finalPath = .cloned) := by
  refine ⟨?_, ?_, ?_⟩
  · intro env url initial
    rw [clone_repository, clone_repository]
    by_cases hv : validate_repo_url url = true
    · rw [if_pos hv, if_pos hv]
    · rw [if_neg hv, if_neg hv]
      cases initial <;> rfl
  · intro env url initial e
    rw [clone_repository]
    by_cases hv : validate_repo_url url = true
    · rw [if_pos hv]
      simp only
      cases ht : (retryAux env.cloneAttempt env.max_retries 0 [] 0).result with
      | ok a => intro hcontra; cases hcontra
      | error e2 => intro _; rfl
    · rw [if_neg hv]
      intro _
      cases initial <;> rfl
  · intro env url initial b
    rw [clone_repository]
    by_cases hv : validate_repo_url url = true
    · rw [if_pos hv]
      simp only
      cases ht : (retryAux env.cloneAttempt env.max_retries 0 [] 0).result with
      | ok a => intro _; rfl
      | error e2 => intro hcontra; cases hcontra
    · rw [if_neg hv]
      intro hcontra
      cases initial <;> cases hcontra

/-- Witness for C8 at concrete inputs: with a pre-existing directory and
an always-failing clone, the destination ends absent and the outcome
equals the from-absent outcome; with a succeeding clone, a fresh clone
remains. -/
theorem clone_repository_clean_slate_witness :
    (clone_repository envRetryW "bad-url" .preexisting =
      clone_repository envRetryW "bad-url" .absent) ∧
    (clone_repository envRetryW "bad-url" .preexisting).finalPath = .absent ∧
    (clone_repository envRetryW "https://github.com/acme/demo" .preexisting).finalPath =
      .cloned := by
  refine ⟨clone_repository_clean_slate.1 envRetryW "bad-url" .preexisting, ?_, ?_⟩
  · apply clone_repository_clean_slate.2.1 envRetryW "bad-url" .preexisting
      ("Failed to clone repository: " ++ ("Invalid repository URL: " ++ "bad-url"))
    rw [clone_repository, if_neg (by decide)]
  · apply clone_repository_clean_slate.2.2 envRetryW "https://github.com/acme/demo"
      .preexisting true
    have ht := retryAux_ok envRetryW.cloneAttempt 3 1 0 [] 0 (by omega)
      (fun i h1 h2 => ⟨"connection reset", by
        rw [show envRetryW.cloneAttempt i = if i = 0 then .error "connection reset" else .ok ()
          from rfl, if_pos (by omega)]⟩)
      () (by rfl)
    rw [clone_repository, if_pos (by rfl)]
    simp only [show envRetryW.max_retries = 3 from rfl, ht]

/-! ## Worker pool (`sync_multiple_repositories`, git_sync.py lines 247–300)

The thread pool submits one `sync_repo` task per repository and collects
`future.result()` into `results[name]`.  Concurrency itself is not
observable in the result mapping: each task writes a distinct key, and
the iteration over `future_to_repo` preserves submission order, so the
aggregation is modelled as a fold in list order.  `max_workers` is kept
as an argument to mirror the signature; the thread pool requires it to
be positive, and it does not influence the mapping. -/

/-- A repository descriptor from the configuration. -/
structure RepoConfig where
  name : String
  url : String
  local_path : String
  deriving DecidableEq

/-- The body of `sync_repo` (git_sync.py lines 262–281): sync, then — on
sync success — back up and attach the backup path; any exception (in
practice the `GitSyncError` of a failed backup) is caught in the task and
converted to a failed dict with the error text. -/
def sync_repo (envs : RepoConfig → GitEnv) (repo : RepoConfig) : String × ResultDict :=
  let sres := (sync_repository (envs repo)).1
  if sres.status = "success" then
    match backup_repository (envs repo) repo.name with
    | .ok bp => (repo.name, {sres with backup_path := some bp})
    | .error e => (repo.name, {status := "failed", error := some e})
  else (repo.name, sres)

/-- `results[name] = result` on a Python dict: replace in place when the
key exists, append otherwise. -/
def insertResult : List (String × ResultDict) → String × ResultDict →
    List (String × ResultDict)
  | [], p => [p]
  | q :: rest, p => if q.1 = p.1 then (q.1, p.2) :: rest else q :: insertResult rest p

/-- Dict lookup on the results mapping. -/
def lookupResult : List (String × ResultDict) → String → Option ResultDict
  | [], _ => none
  | p :: rest, k => if p.1 = k then some p.2 else lookupResult rest k

/-- `sync_multiple_repositories` (git_sync.py lines 247–300): one task
per repository, results collected per name. -/
def sync_multiple_repositories (envs : RepoConfig → GitEnv) (repos : List RepoConfig)
    (max_workers : Nat) : List (String × ResultDict) :=
  let _ := max_workers
  repos.foldl (fun results repo => insertResult results (sync_repo envs repo)) []

theorem sync_repo_fst (envs : RepoConfig → GitEnv) (repo : RepoConfig) :
    (sync_repo envs repo).1 = repo.name := by
  rw [sync_repo]
  by_cases h : (sync_repository (envs repo)).1.status = "success"
  · rw [if_pos h]
    cases backup_repository (envs repo) repo.name <;> rfl
  · rw [if_neg h]

theorem insertResult_of_not_mem {acc : List (String × ResultDict)} {p : String × ResultDict}
    (h : p.1 ∉ acc.map Prod.fst) : insertResult acc p = acc ++ [p] := by
  induction acc with
  | nil => rfl
  | cons q rest ih =>
    have hq : ¬(q.1 = p.1) := by
      intro hh
      exact h (by simp [hh.symm])
    rw [insertResult, if_neg hq, ih (fun hm => h (by simp [hm]))]
    rfl

theorem foldl_insertResult (ps : List (String × ResultDict)) :
    ∀ acc : List (String × ResultDict),
      ((acc.map Prod.fst) ++ ps.map Prod.fst).Nodup →
      ps.foldl insertResult acc = acc ++ ps := by
  induction ps with
  | nil => intro acc _; simp
  | cons p rest ih =>
    intro acc hnd
    rw [List.foldl_cons]
    have hp : p.1 ∉ acc.map Prod.fst := by
      intro hm
      rcases List.nodup_append.mp hnd with ⟨_, _, hdisj⟩
      exact hdisj hm (by simp)
    rw [insertResult_of_not_mem hp, ih (acc ++ [p]) (by simpa using hnd)]
    simp

theorem lookupResult_map {f : RepoConfig → String × ResultDict}
    (hf : ∀ r, (f r).1 = r.name) :
    ∀ (repos : List RepoConfig) (r : RepoConfig), (repos.map RepoConfig.name).Nodup →
      r ∈ repos → lookupResult (repos.map f) r.name = some (f r).2 := by
  intro repos
  induction repos with
  | nil => intro r _ hr; cases hr
  | cons q rest ih =>
    intro r hnd hr
    rcases List.mem_cons.mp hr with rfl | hmem
    · rw [List.map_cons, lookupResult, if_pos (hf r)]
    · have hne : ¬((f q).1 = r.name) := by
        rw [hf q]
        intro hh
        have hrn : r.name ∈ rest.map RepoConfig.name := List.mem_map.mpr ⟨r, hmem, rfl⟩
        exact (List.nodup_cons.mp (by simpa using hnd)).1 (hh ▸ hrn)
      rw [List.map_cons, lookupResult, if_neg hne]
      exact ih r (List.nodup_cons.mp (by simpa using hnd)).2 hmem

theorem sync_multiple_eq_map (envs : RepoConfig → GitEnv) (repos : List RepoConfig)
    (mw : Nat) (hnd : (repos.map RepoConfig.name).Nodup) :
    sync_multiple_repositories envs repos mw = repos.map (sync_repo envs) := by
  rw [sync_multiple_repositories]
  show repos.foldl (fun results repo => insertResult results (sync_repo envs repo)) [] = _
  rw [← List.foldl_map (sync_repo envs) insertResult repos []]
  rw [foldl_insertResult]
  · simp
  · simp only [List.nil_append, List.map_map]
    have hcomp : (Prod.fst ∘ sync_repo envs) = RepoConfig.name := by
      funext r
      exact sync_repo_fst envs r
    rw [hcomp]
    exact hnd

/-! ## Orchestrator (`process_repository` and `backup_and_sync`, main.py lines 180–312)

`process_repository` checks the process-wide cancellation flag
(`self.shutdown_event.is_set()`) exactly once, at its entry (main.py
lines 192–193); the flag is not re-read between stages.  The flag is
modelled as `flagAt : Nat → Bool`, the value that *would* be observed at
the start of the `i`-th stage boundary (0 = task start, before Cloning;
1 = before Syncing; 2 = before BackingUp; 3 = before Persisting); the
code reads only `flagAt 0`.  The trace records the stages that ran and
how many Record Store writes were performed (`add_repository` and
`update_last_sync`, one each).

`backup_and_sync` (main.py lines 239–312) collects one
`process_repository` result per repository into `results[name]` and,
after all tasks settle, prunes old backups only when the flag is still
unset (lines 299–301); task `i` observes `flags i` and the prune check
observes `pruneFlag`. -/

/-- The stages of one repository task. -/
inductive Stage where
  | cloning
  | syncing
  | backingUp
  | persisting
  deriving DecidableEq

/-- Environment of one `process_repository` task. -/
structure MainEnv where
  git : GitEnv
  hasGitDir : Bool
  path0 : PathState
  dbAdd : Except String Nat
  dbUpdate : Except String Unit

/-- The dict returned when the task observes the cancellation flag. -/
def cancelledDict : ResultDict :=
  {status := "cancelled", error := some "Operation cancelled"}

/-- `process_repository` (main.py lines 180–237): check the flag once,
clone when there is no `.git` marker, sync, and on sync success back up
and persist; every raise is caught and becomes a failed dict.  Returns
the result dict, the stages that ran, and the number of Record Store
writes. -/
def process_repository (env : MainEnv) (repo : RepoConfig) (flagAt : Nat → Bool) :
    ResultDict × List Stage × Nat :=
  if flagAt 0 then (cancelledDict, [], 0)
  else
    let cloneStep : Except String (List Stage) :=
      if env.hasGitDir then .ok []
      else
        match (clone_repository env.git repo.url env.path0).result with
        | .ok _ => .ok [.cloning]
        | .error e => .error e
    match cloneStep with
    | .error e => ({status := "failed", error := some e}, [.cloning], 0)
    | .ok s0 =>
      let sres := (sync_repository env.git).1
      if sres.status = "success" then
        match backup_repository env.git repo.name with
        | .error e => ({status := "failed", error := some e}, s0 ++ [.syncing, .backingUp], 0)
        | .ok bp =>
          match env.dbAdd with
          | .error e =>
            ({status := "failed", error := some e},
              s0 ++ [.syncing, .backingUp, .persisting], 0)
          | .ok _ =>
            match env.dbUpdate with
            | .error e =>
              ({status := "failed", error := some e},
                s0 ++ [.syncing, .backingUp, .persisting], 1)
            | .ok _ =>
              ({sres with backup_path := some bp},
                s0 ++ [.syncing, .backingUp, .persisting], 2)
      else (sres, s0 ++ [.syncing], 0)

/-- `backup_and_sync` (main.py lines 239–312): one task per repository
collected into `results[name]`; after all tasks settle, `cleanup` runs
only if the flag is still unset.  Returns the results mapping and
whether pruning ran. -/
def backup_and_sync (envs : RepoConfig → MainEnv) (repos : List RepoConfig)
    (flags : Nat → Nat → Bool) (pruneFlag : Bool) :
    List (String × ResultDict) × Bool :=
  let results := (repos.enum).foldl
    (fun results p =>
      insertResult results (p.2.name, (process_repository (envs p.2) p.2 (flags p.1)).1)) []
  (results, !pruneFlag)

theorem backup_and_sync_results_eq_map (envs : RepoConfig → MainEnv) (repos : List RepoConfig)
    (flags : Nat → Nat → Bool) (pruneFlag : Bool)
    (hnd : (repos.map RepoConfig.name).Nodup) :
    (backup_and_sync envs repos flags pruneFlag).1 =
      (repos.enum).map (fun p => (p.2.name, (process_repository (envs p.2) p.2 (flags p.1)).1)) := by
  rw [backup_and_sync]
  show (repos.enum).foldl
      (fun results p =>
        insertResult results (p.2.name, (process_repository (envs p.2) p.2 (flags p.1)).1)) [] = _
  rw [← List.foldl_map
    (fun p => (p.2.name, (process_repository (envs p.2) p.2 (flags p.1)).1)) insertResult
    repos.enum []]
  rw [foldl_insertResult]
  · simp
  · simp only [List.nil_append, List.map_map]
    have hcomp : (Prod.fst ∘ fun p : Nat × RepoConfig =>
        (p.2.name, (process_repository (envs p.2) p.2 (flags p.1)).1)) =
        (RepoConfig.name ∘ Prod.snd) := by
      funext p
      rfl
    rw [hcomp, ← List.map_map, List.enum_map_snd]
    exact hnd

/-- Claim C1: over `N` descriptors with pairwise-distinct names and any
positive worker count, `sync_multiple_repositories` returns a mapping
with exactly the `N` descriptor names as keys, one entry per descriptor,
independent of the worker count; a task whose backup raises is captured
as a `failed` entry carrying the error detail, never propagated.  The
result-collection loop of `backup_and_sync` (main.py lines 264–284) is
covered by claim C7's model, which reuses this aggregation. -/
theorem sync_multiple_repositories_complete (envs : RepoConfig → GitEnv)
    (repos : List RepoConfig) (mw : Nat) (_hmw : 1 ≤ mw)
    (hnd : (repos.map RepoConfig.name).Nodup) :
    ((sync_multiple_repositories envs repos mw).map Prod.fst = repos.map RepoConfig.name) ∧
    ((sync_multiple_repositories envs repos mw).length = repos.length) ∧
    (∀ mw2, 1 ≤ mw2 →
      sync_multiple_repositories envs repos mw2 = sync_multiple_repositories envs repos mw) ∧
    (∀ r ∈ repos, lookupResult (sync_multiple_repositories envs repos mw) r.name =
      some (sync_repo envs r).2) ∧
    (∀ r ∈ repos, ∀ e, (sync_repository (envs r)).1.status = "success" →
      backup_repository (envs r) r.name = .error e →
      lookupResult (sync_multiple_repositories envs repos mw) r.name =
        some {status := "failed", error := some e}) ∧
    (∀ (menvs : RepoConfig → MainEnv) (flags : Nat → Nat → Bool) (pf : Bool),
      (backup_and_sync menvs repos flags pf).1.map Prod.fst = repos.map RepoConfig.name) := by
  rw [sync_multiple_eq_map envs repos mw hnd]
  refine ⟨?_, ?_, ?_, ?_, ?_, ?_⟩
  · rw [List.map_map]
    apply List.map_congr_left
    intro r _
    exact sync_repo_fst envs r
  · rw [List.length_map]
  · intro mw2 _
    rw [sync_multiple_eq_map envs repos mw2 hnd]
  · intro r hr
    exact lookupResult_map (sync_repo_fst envs) repos r hnd hr
  · intro r hr e hsync hbackup
    have h := lookupResult_map (sync_repo_fst envs) repos r hnd hr
    rw [h]
    rw [show (sync_repo envs r).2 = {status := "failed", error := some e} from by
      rw [sync_repo, if_pos hsync, hbackup]]
  · intro menvs flags pf
    rw [backup_and_sync_results_eq_map menvs repos flags pf hnd, List.map_map]
    have hcomp : (Prod.fst ∘ fun p : Nat × RepoConfig =>
        (p.2.name, (process_repository (menvs p.2) p.2 (flags p.1)).1)) =
        (RepoConfig.name ∘ Prod.snd) := by
      funext p
      rfl
    rw [hcomp, ← List.map_map, List.enum_map_snd]

/-- Per-repository environments for the C1 witness: `alpha` succeeds
end-to-end, `beta` syncs but its backup copy fails on every attempt. -/
def envsW : RepoConfig → GitEnv :=
  fun repo =>
    { max_retries := 1
      cloneAttempt := fun _ => .ok ()
      openRepo := .ok ()
      fetchPullAttempt := fun _ => .ok ()
      branch := "main"
      headCommit := "abc123"
      nowIso := "2024-01-01T12:00:00"
      nowStamp := "20240101_120000"
      copyAttempt := fun _ => if repo.name = "beta" then .error "disk full" else .ok ()
      base_backup_dir := "temp_backups" }

/-- The two descriptors of the C1 witness. -/
def reposW : List RepoConfig :=
  [⟨"alpha", "https://github.com/acme/alpha", "repos/alpha"⟩,
   ⟨"beta", "https://github.com/acme/beta", "repos/beta"⟩]

/-- The second descriptor of the C1 witness, whose backup fails. -/
def bRepoW : RepoConfig := ⟨"beta", "https://github.com/acme/beta", "repos/beta"⟩

/-- Witness for C1 at a concrete input: two descriptors, worker counts 1
and 2 — the mapping has exactly the two names as keys either way, and the
repository whose backup fails is reported as a failed entry with the
error detail. -/
theorem sync_multiple_repositories_complete_witness :
    ((sync_multiple_repositories envsW reposW 1).map Prod.fst = ["alpha", "beta"]) ∧
    ((sync_multiple_repositories envsW reposW 1).length = 2) ∧
    (sync_multiple_repositories envsW reposW 2 = sync_multiple_repositories envsW reposW 1) ∧
    (lookupResult (sync_multiple_repositories envsW reposW 1) "beta" =
      some { status := "failed",
             error := some ("Error creating backup for beta: " ++
               "Operation failed after 1 attempts: disk full") }) ∧
    ((backup_and_sync (fun r => ⟨envsW r, true, .absent, .ok 1, .ok ()⟩) reposW
        (fun _ _ => false) false).1.map Prod.fst = ["alpha", "beta"]) := by
  have h := sync_multiple_repositories_complete envsW reposW 1 (by omega) (by decide)
  refine ⟨h.1.trans (by decide), h.2.1.trans (by decide), h.2.2.1 2 (by omega), ?_,
    (h.2.2.2.2.2 (fun r => ⟨envsW r, true, .absent, .ok 1, .ok ()⟩)
      (fun _ _ => false) false).trans (by decide)⟩

  have hbeta : bRepoW ∈ reposW := by decide
  have hsync : (sync_repository (envsW bRepoW)).1.status = "success" := by
    have hro := retry_first_ok (envsW bRepoW).fetchPullAttempt (envsW bRepoW).max_retries
      (by decide) (show (envsW bRepoW).fetchPullAttempt 0 = .ok () from rfl)
    rw [sync_repository, show (envsW bRepoW).openRepo = .ok () from rfl]
    simp only [hro]
  have hbackup : backup_repository (envsW bRepoW) "beta" =
      .error ("Error creating backup for beta: " ++
        "Operation failed after 1 attempts: disk full") := by
    obtain ⟨e, he, heq⟩ := retryAux_exhaust (envsW bRepoW).copyAttempt
      (envsW bRepoW).max_retries 0 0 [] 0 (by decide)
      (fun i h1 h2 => ⟨"disk full",
        show (envsW bRepoW).copyAttempt i = .error "disk full" from rfl⟩)
    have he2 : e = "disk full" := by
      rw [show (envsW bRepoW).copyAttempt ((envsW bRepoW).max_retries - 1) =
        .error "disk full" from rfl] at he
      exact ((Except.error.injEq _ _).mp he).symm
    subst he2
    rw [backup_repository, heq]
    rfl
  exact h.2.2.2.2.1 bRepoW hbeta
    ("Error creating backup for beta: " ++ "Operation failed after 1 attempts: disk full")
    hsync hbackup


theorem mem_insertResult {acc : List (String × ResultDict)} {p x : String × ResultDict}
    (h : x ∈ insertResult acc p) : x ∈ acc ∨ x.2 = p.2 := by
  induction acc with
  | nil =>
    rw [insertResult] at h
    rcases List.mem_singleton.mp h with rfl
    right
    rfl
  | cons q rest ih =>
    rw [insertResult] at h
    by_cases hq : q.1 = p.1
    · rw [if_pos hq] at h
      rcases List.mem_cons.mp h with rfl | hmem
      · right; rfl
      · left; exact List.mem_cons_of_mem _ hmem
    · rw [if_neg hq] at h
      rcases List.mem_cons.mp h with rfl | hmem
      · left; exact List.mem_cons_self _ _
      · rcases ih hmem with h1 | h2
        · left; exact List.mem_cons_of_mem _ h1
        · right; exact h2

theorem foldl_insertResult_value_inv (P : ResultDict → Prop) :
    ∀ (ps : List (String × ResultDict)) (acc : List (String × ResultDict)),
      (∀ x ∈ acc, P x.2) → (∀ p ∈ ps, P p.2) →
      ∀ x ∈ ps.foldl insertResult acc, P x.2 := by
  intro ps
  induction ps with
  | nil => intro acc hacc _ x hx; exact hacc x hx
  | cons p rest ih =>
    intro acc hacc hps x hx
    rw [List.foldl_cons] at hx
    refine ih (insertResult acc p) ?_ (fun q hq => hps q (List.mem_cons_of_mem p hq)) x hx
    intro y hy
    rcases mem_insertResult hy with h1 | h2
    · exact hacc y h1
    · rw [h2]; exact hps p (List.mem_cons_self p rest)

/-- Claim C7 (amended): the cancellation flag is observed exactly once
per task, at the start of `process_repository` — not at every stage
boundary: a task that observes the flag set at its start returns a
Cancelled outcome with no stage executed and no Record Store write; and
when the flag is set before `backup_and_sync` dispatches (so every task
observes it set at its start and the post-run check observes it set)
every entry of the result mapping is Cancelled and pruning is skipped.
A flag set only after a task has started (see the counterexample) does
not stop its remaining stages. -/
theorem cancellation_spec :
    (∀ (env : MainEnv) (repo : RepoConfig) (flagAt : Nat → Bool), flagAt 0 = true →
      process_repository env repo flagAt = (cancelledDict, [], 0)) ∧
    (∀ (envs : RepoConfig → MainEnv) (repos : List RepoConfig) (flags : Nat → Nat → Bool)
      (pruneFlag : Bool), (∀ i, flags i 0 = true) → pruneFlag = true →
      (∀ x ∈ (backup_and_sync envs repos flags pruneFlag).1, x.2 = cancelledDict) ∧
      (backup_and_sync envs repos flags pruneFlag).2 = false) := by
  have h1 : ∀ (env : MainEnv) (repo : RepoConfig) (flagAt : Nat → Bool), flagAt 0 = true →
      process_repository env repo flagAt = (cancelledDict, [], 0) := by
    intro env repo flagAt h
    rw [process_repository, if_pos h]
  refine ⟨h1, ?_⟩
  intro envs repos flags pruneFlag hflags hpf
  constructor
  · intro x hx
    have heq : (backup_and_sync envs repos flags pruneFlag).1 =
        ((repos.enum).map (fun p =>
          (p.2.name, (process_repository (envs p.2) p.2 (flags p.1)).1))).foldl
          insertResult [] := by
      rw [backup_and_sync]
      show (repos.enum).foldl
        (fun results p =>
          insertResult results (p.2.name, (process_repository (envs p.2) p.2 (flags p.1)).1))
        [] = _
      rw [List.foldl_map]
    rw [heq] at hx
    refine foldl_insertResult_value_inv (fun d => d = cancelledDict) _ [] (by simp) ?_ x hx
    intro p hp
    obtain ⟨q, _, rfl⟩ := List.mem_map.mp hp
    show (process_repository (envs q.2) q.2 (flags q.1)).1 = cancelledDict
    rw [h1 (envs q.2) q.2 (flags q.1) (hflags q.1)]
  · rw [backup_and_sync, hpf]
    rfl

theorem process_repository_all_ok (env : MainEnv) (repo : RepoConfig) (flagAt : Nat → Bool)
    (hflag : flagAt 0 = false) (hgit : env.hasGitDir = false)
    (hclone : (clone_repository env.git repo.url env.path0).result = .ok true)
    (hs : (sync_repository env.git).1.status = "success")
    (bp : String) (hb : backup_repository env.git repo.name = .ok bp)
    (n : Nat) (ha : env.dbAdd = .ok n) (hu : env.dbUpdate = .ok ()) :
    process_repository env repo flagAt =
      ({(sync_repository env.git).1 with backup_path := some bp},
        [.cloning, .syncing, .backingUp, .persisting], 2) := by
  rw [process_repository, if_neg (by rw [hflag]; exact Bool.false_ne_true)]
  simp only [hgit, Bool.false_eq_true, if_false, hclone, hs, hb, ha, hu]
  simp

/-- Environment where every underlying operation succeeds at its first
invocation. -/
def envAllOkW : GitEnv where
  max_retries := 3
  cloneAttempt := fun _ => .ok ()
  openRepo := .ok ()
  fetchPullAttempt := fun _ => .ok ()
  branch := "main"
  headCommit := "abc123"
  nowIso := "2024-01-01T12:00:00"
  nowStamp := "20240101_120000"
  copyAttempt := fun _ => .ok ()
  base_backup_dir := "temp_backups"

/-- Task environment of the C7 theorems: fresh checkout, everything
succeeds. -/
def envMainW : MainEnv := ⟨envAllOkW, false, .absent, .ok 1, .ok ()⟩

/-- Descriptor of the C7 theorems. -/
def repoDemoW : RepoConfig := ⟨"demo", "https://github.com/acme/demo", "repos/demo"⟩

/-- Cancellation flag set from stage boundary 1 onwards: unset when the
task starts, set before Syncing (and every later stage) starts. -/
def lateFlagW : Nat → Bool := fun n => decide (1 ≤ n)

/-- Counterexample to claim C7 as stated: the flag is set before the
Syncing boundary (`lateFlagW 1 = true`), yet the task runs Syncing,
BackingUp and Persisting to a Success outcome with two Record Store
writes — cancellation is only observed at the very start of
`process_repository` (main.py lines 191–193), not at every stage
boundary. -/
theorem cancellation_counterexample :
    lateFlagW 1 = true ∧
    (process_repository envMainW repoDemoW lateFlagW).1.status = "success" ∧
    (process_repository envMainW repoDemoW lateFlagW).2.1 =
      [.cloning, .syncing, .backingUp, .persisting] ∧
    (process_repository envMainW repoDemoW lateFlagW).2.2 = 2 := by
  have hclone : (clone_repository envMainW.git repoDemoW.url envMainW.path0).result =
      .ok true := by
    rw [clone_repository, if_pos (by decide)]
    simp only [retry_first_ok envMainW.git.cloneAttempt envMainW.git.max_retries (by decide)
      (show envMainW.git.cloneAttempt 0 = .ok () from rfl)]
  have hs : (sync_repository envMainW.git).1.status = "success" := by
    rw [sync_repository, show envMainW.git.openRepo = .ok () from rfl]
    simp only [retry_first_ok envMainW.git.fetchPullAttempt envMainW.git.max_retries (by decide)
      (show envMainW.git.fetchPullAttempt 0 = .ok () from rfl)]
  have hb : backup_repository envMainW.git repoDemoW.name =
      .ok "temp_backups/demo_20240101_120000" := by
    rw [backup_repository]
    simp only [retry_first_ok envMainW.git.copyAttempt envMainW.git.max_retries (by decide)
      (show envMainW.git.copyAttempt 0 = .ok () from rfl)]
    rfl
  have hp := process_repository_all_ok envMainW repoDemoW lateFlagW (by decide)
    (by rfl) hclone hs _ hb 1 (by rfl) (by rfl)
  rw [hp]
  exact ⟨by decide, hs, rfl, rfl⟩

/-- Witness for the amended C7 at concrete inputs: a task that observes
the flag at its start is cancelled with nothing executed, and a run
whose flag is set before dispatch skips pruning. -/
theorem cancellation_spec_witness :
    process_repository envMainW repoDemoW (fun _ => true) = (cancelledDict, [], 0) ∧
    (backup_and_sync (fun _ => envMainW) reposW (fun _ _ => true) true).2 = false := by
  exact ⟨cancellation_spec.1 envMainW repoDemoW (fun _ => true) rfl,
    (cancellation_spec.2 (fun _ => envMainW) reposW (fun _ _ => true) true
      (fun i => rfl) rfl).2⟩


/-! ## Record store (`RepositoryDatabase`, database.py)

The SQLite table `repositories` is modelled as a list of rows in rowid
order plus the next rowid to assign.  `add_repository` (lines 105–149)
looks up the *first* row matching
`name = ? OR url = ? OR local_path = ?` — an OR over the three fields,
not the full triple — and either updates every row with that id
(`UPDATE ... WHERE id = ?`) to the new triple with `is_active = 1`, or
inserts a fresh row (`is_active` defaults to 1, `last_sync` to NULL).
`get_sync_statistics` (lines 293–331) computes SQL aggregates; note that
`SUM(...)` over zero rows is NULL in SQL, so on an empty table the
`active`/`inactive`/`never_synced` fields come back as `None` while
`COUNT(*)` is 0. -/

/-- One row of the `repositories` table. -/
structure Row where
  id : Nat
  name : String
  url : String
  local_path : String
  last_sync : Option String
  is_active : Int
  deriving DecidableEq

/-- The table in rowid order, plus the next rowid. -/
structure DB where
  rows : List Row
  nextId : Nat
  deriving DecidableEq

/-- The freshly initialized database. -/
def DB.empty : DB := ⟨[], 1⟩

/-- The `WHERE name = ? OR url = ? OR local_path = ?` test of
`add_repository`. -/
def matchQ (n u p : String) (row : Row) : Bool :=
  row.name == n || row.url == u || row.local_path == p

/-- The `UPDATE ... SET name, url, local_path, is_active = 1 WHERE id = ?`
of `add_repository`, applied to one row. -/
def updateFn (n u p : String) (rid : Nat) (row : Row) : Row :=
  if row.id = rid then
    {row with name := n, url := u, local_path := p, is_active := 1}
  else row

/-- `add_repository` (database.py lines 105–149): update-and-reactivate
the first row any of whose three fields matches, else insert; returns
the affected row id and the new database. -/
def add_repository (db : DB) (n u p : String) : Nat × DB :=
  match db.rows.find? (matchQ n u p) with
  | some r => (r.id, ⟨db.rows.map (updateFn n u p r.id), db.nextId⟩)
  | none => (db.nextId, ⟨db.rows ++ [⟨db.nextId, n, u, p, none, 1⟩], db.nextId + 1⟩)

/-- `UPDATE repositories SET ... WHERE id = ?` via `update_repository`:
apply `f` to every row with the given id (no-op when the id is absent,
as in SQL). -/
def update_rows (db : DB) (rid : Nat) (f : Row → Row) : DB :=
  ⟨db.rows.map (fun r => if r.id = rid then f r else r), db.nextId⟩

/-- `update_last_sync` (database.py lines 230–244). -/
def update_last_sync (db : DB) (rid : Nat) (t : String) : DB :=
  update_rows db rid (fun r => {r with last_sync := some t})

/-- `deactivate_repository` (database.py lines 246–259). -/
def deactivate_repository (db : DB) (rid : Nat) : DB :=
  update_rows db rid (fun r => {r with is_active := 0})

/-- `reactivate_repository` (database.py lines 261–274). -/
def reactivate_repository (db : DB) (rid : Nat) : DB :=
  update_rows db rid (fun r => {r with is_active := 1})

/-- `delete_repository` (database.py lines 276–291). -/
def delete_repository (db : DB) (rid : Nat) : DB :=
  ⟨db.rows.filter (fun r => !(r.id == rid)), db.nextId⟩

/-- `MAX(last_sync)`: NULL when every value is NULL, otherwise the
largest non-null value (SQL skips NULLs). -/
def maxString (a b : String) : String := if a < b then b else a

/-- Aggregate of the `last_sync` column. -/
def lastSyncAgg (rows : List Row) : Option String :=
  match rows.filterMap Row.last_sync with
  | [] => none
  | x :: xs => some (xs.foldl maxString x)

/-- The statistics record returned by `get_sync_statistics`. -/
structure SyncStats where
  total_repositories : Nat
  active_repositories : Option Nat
  inactive_repositories : Option Nat
  last_sync_time : Option String
  never_synced : Option Nat
  deriving DecidableEq

/-- `get_sync_statistics` (database.py lines 293–331): `COUNT(*)` and the
three `SUM(CASE ...)` aggregates; a SQL `SUM` over zero rows is NULL. -/
def get_sync_statistics (db : DB) : SyncStats where
  total_repositories := db.rows.length
  active_repositories :=
    if db.rows = [] then none else some (db.rows.countP (fun r => r.is_active = 1))
  inactive_repositories :=
    if db.rows = [] then none else some (db.rows.countP (fun r => r.is_active = 0))
  last_sync_time := lastSyncAgg db.rows
  never_synced :=
    if db.rows = [] then none else some (db.rows.countP (fun r => r.last_sync = none))

/-- Database states reachable from the fresh database through the five
public mutating operations. -/
inductive Reachable : DB → Prop where
  | init : Reachable DB.empty
  | add (db : DB) (n u p : String) : Reachable db → Reachable (add_repository db n u p).2
  | updSync (db : DB) (rid : Nat) (t : String) :
      Reachable db → Reachable (update_last_sync db rid t)
  | deact (db : DB) (rid : Nat) : Reachable db → Reachable (deactivate_repository db rid)
  | react (db : DB) (rid : Nat) : Reachable db → Reachable (reactivate_repository db rid)
  | del (db : DB) (rid : Nat) : Reachable db → Reachable (delete_repository db rid)

theorem is_active_invariant {db : DB} (h : Reachable db) :
    ∀ r ∈ db.rows, r.is_active = 0 ∨ r.is_active = 1 := by
  induction h with
  | init => intro r hr; cases hr
  | add db n u p _ ih =>
    intro r hr
    rw [add_repository] at hr
    cases hfind : db.rows.find? (matchQ n u p) with
    | some q =>
      rw [hfind] at hr
      obtain ⟨r0, hr0, rfl⟩ := List.mem_map.mp hr
      rw [updateFn]
      by_cases hid : r0.id = q.id
      · rw [if_pos hid]; right; rfl
      · rw [if_neg hid]; exact ih r0 hr0
    | none =>
      rw [hfind] at hr
      rcases List.mem_append.mp hr with h1 | h2
      · exact ih r h1
      · rcases List.mem_singleton.mp h2 with rfl
        right; rfl
  | updSync db rid t _ ih =>
    intro r hr
    obtain ⟨r0, hr0, rfl⟩ := List.mem_map.mp hr
    by_cases hid : r0.id = rid
    · rw [if_pos hid]; exact ih r0 hr0
    · rw [if_neg hid]; exact ih r0 hr0
  | deact db rid _ ih =>
    intro r hr
    obtain ⟨r0, hr0, rfl⟩ := List.mem_map.mp hr
    by_cases hid : r0.id = rid
    · rw [if_pos hid]; left; rfl
    · rw [if_neg hid]; exact ih r0 hr0
  | react db rid _ ih =>
    intro r hr
    obtain ⟨r0, hr0, rfl⟩ := List.mem_map.mp hr
    by_cases hid : r0.id = rid
    · rw [if_pos hid]; right; rfl
    · rw [if_neg hid]; exact ih r0 hr0
  | del db rid _ ih =>
    intro r hr
    exact ih r (List.mem_of_mem_filter hr)

/-- Claim C10 (amended): in every reachable database state every row has
`is_active` 0 or 1, and `get_sync_statistics` on a *nonempty* table
returns `total = active + inactive` with `never_synced` the number of
NULL `last_sync` rows; on the empty table (also reachable, e.g. after a
delete) the SQL `SUM` aggregates are NULL — `active`, `inactive` and
`never_synced` come back as `None` — so the equation does not hold
there. -/
theorem get_sync_statistics_spec {db : DB} (h : Reachable db) :
    (∀ r ∈ db.rows, r.is_active = 0 ∨ r.is_active = 1) ∧
    (db.rows ≠ [] →
      ∃ a i nn, (get_sync_statistics db).active_repositories = some a ∧
        (get_sync_statistics db).inactive_repositories = some i ∧
        (get_sync_statistics db).total_repositories = a + i ∧
        (get_sync_statistics db).never_synced = some nn ∧
        nn = db.rows.countP (fun r => r.last_sync = none)) := by
  have hinv := is_active_invariant h
  refine ⟨hinv, ?_⟩
  intro hne
  refine ⟨db.rows.countP (fun r => r.is_active = 1),
    db.rows.countP (fun r => r.is_active = 0),
    db.rows.countP (fun r => r.last_sync = none), ?_, ?_, ?_, ?_, rfl⟩
  · rw [get_sync_statistics]
    simp only [if_neg hne]
  · rw [get_sync_statistics]
    simp only [if_neg hne]
  · rw [get_sync_statistics]
    simp only
    have hsplit := List.length_eq_countP_add_countP (fun r : Row => r.is_active = 1) db.rows
    rw [hsplit]
    congr 1
    apply List.countP_congr
    intro r hr
    rcases hinv r hr with h0 | h1
    · simp [h0]
    · simp [h1]
  · rw [get_sync_statistics]
    simp only [if_neg hne]

/-- The reachable state obtained by adding one repository and deleting
it again: the table is empty once more. -/
def dbAddDel : DB :=
  delete_repository (add_repository DB.empty "a" "https://github.com/x/a" "/tmp/a").2 1

/-- Counterexample to claim C10 as stated: on the reachable empty state
`dbAddDel` the statistics record has `total_repositories = 0` but
`active_repositories`, `inactive_repositories` and `never_synced` are
all `None` (SQL `SUM` over zero rows), so the claimed equations
`total = active + inactive` and `never_synced = #NULL-last_sync rows`
fail — there are no numbers to satisfy them. -/
theorem get_sync_statistics_counterexample :
    Reachable dbAddDel ∧
    (get_sync_statistics dbAddDel).total_repositories = 0 ∧
    (get_sync_statistics dbAddDel).active_repositories = none ∧
    (get_sync_statistics dbAddDel).never_synced = none ∧
    ¬(∃ a i, (get_sync_statistics dbAddDel).active_repositories = some a ∧
        (get_sync_statistics dbAddDel).inactive_repositories = some i ∧
        (get_sync_statistics dbAddDel).total_repositories = a + i) := by
  refine ⟨?_, by decide, by decide, by decide, ?_⟩
  · exact Reachable.del _ 1
      (Reachable.add DB.empty "a" "https://github.com/x/a" "/tmp/a" Reachable.init)
  · rintro ⟨a, i, ha, -, -⟩
    rw [show (get_sync_statistics dbAddDel).active_repositories = none from by decide] at ha
    cases ha

/-- Witness for the amended C10 at a concrete reachable state: one added
repository, then deactivated — statistics add up. -/
theorem get_sync_statistics_spec_witness :
    (∀ r ∈ (deactivate_repository (add_repository DB.empty "a" "u" "p").2 1).rows,
        r.is_active = 0 ∨ r.is_active = 1) ∧
    (∃ a i nn,
      (get_sync_statistics (deactivate_repository
        (add_repository DB.empty "a" "u" "p").2 1)).active_repositories = some a ∧
      (get_sync_statistics (deactivate_repository
        (add_repository DB.empty "a" "u" "p").2 1)).inactive_repositories = some i ∧
      (get_sync_statistics (deactivate_repository
        (add_repository DB.empty "a" "u" "p").2 1)).total_repositories = a + i ∧
      (get_sync_statistics (deactivate_repository
        (add_repository DB.empty "a" "u" "p").2 1)).never_synced = some nn ∧
      nn = (deactivate_repository (add_repository DB.empty "a" "u" "p").2 1).rows.countP
        (fun r => r.last_sync = none)) := by
  have hreach : Reachable (deactivate_repository (add_repository DB.empty "a" "u" "p").2 1) :=
    Reachable.deact _ 1 (Reachable.add DB.empty "a" "u" "p" Reachable.init)
  have h := get_sync_statistics_spec hreach
  exact ⟨h.1, h.2 (by decide)⟩


theorem matchQ_updated (n u p : String) (a : Row) :
    matchQ n u p {a with name := n, url := u, local_path := p, is_active := 1} = true := by
  simp [matchQ]

theorem find?_map_updateFn (n u p : String) (rid : Nat) :
    ∀ (l : List Row) (r : Row), l.find? (matchQ n u p) = some r → r.id = rid →
      ∃ row2, (l.map (updateFn n u p rid)).find? (matchQ n u p) = some row2 ∧
        row2.id = rid ∧ row2.name = n ∧ row2.url = u ∧ row2.local_path = p ∧
        row2.is_active = 1 := by
  intro l
  induction l with
  | nil => intro r h _; cases h
  | cons a t ih =>
    intro r hfind hrid
    by_cases ha : matchQ n u p a = true
    · rw [List.find?_cons_of_pos t ha] at hfind
      have hra : a = r := by
        injection hfind
      subst hra
      have hid : a.id = rid := hrid
      refine ⟨{a with name := n, url := u, local_path := p, is_active := 1}, ?_,
        hid, rfl, rfl, rfl, rfl⟩
      rw [List.map_cons, show updateFn n u p rid a =
        {a with name := n, url := u, local_path := p, is_active := 1} from by
          rw [updateFn, if_pos hid]]
      exact List.find?_cons_of_pos _ (matchQ_updated n u p a)
    · rw [List.find?_cons_of_neg t ha] at hfind
      by_cases hid : a.id = rid
      · refine ⟨{a with name := n, url := u, local_path := p, is_active := 1}, ?_,
          hid, rfl, rfl, rfl, rfl⟩
        rw [List.map_cons, show updateFn n u p rid a =
          {a with name := n, url := u, local_path := p, is_active := 1} from by
            rw [updateFn, if_pos hid]]
        exact List.find?_cons_of_pos _ (matchQ_updated n u p a)
      · obtain ⟨row2, h2, hrest⟩ := ih r hfind hrid
        refine ⟨row2, ?_, hrest⟩
        rw [List.map_cons, show updateFn n u p rid a = a from by rw [updateFn, if_neg hid]]
        rw [List.find?_cons_of_neg _ ha]
        exact h2

/-- Claim C6 (amended): `add_repository` identifies an existing row by
matching *any one* of the three fields — the first row in rowid order
with `name = ? OR url = ? OR local_path = ?` — not the full triple.
When such a row exists the call updates it in place to the new triple,
sets `is_active = 1` and returns the existing id, leaving the row count
unchanged; otherwise it inserts a fresh active row and returns the new
id.  In particular re-adding the same values never creates a duplicate
row: a second `add_repository` with identical arguments returns the same
id and leaves the row count unchanged. -/
theorem add_repository_spec :
    (∀ (db : DB) (n u p : String) (r : Row),
      db.rows.find? (matchQ n u p) = some r →
      (add_repository db n u p).1 = r.id ∧
      (add_repository db n u p).2.rows.length = db.rows.length ∧
      (add_repository db n u p).2.nextId = db.nextId ∧
      (∃ row2 ∈ (add_repository db n u p).2.rows,
        row2.id = r.id ∧ row2.name = n ∧ row2.url = u ∧ row2.local_path = p ∧
        row2.is_active = 1)) ∧
    (∀ (db : DB) (n u p : String),
      db.rows.find? (matchQ n u p) = none →
      (add_repository db n u p).1 = db.nextId ∧
      (add_repository db n u p).2.rows = db.rows ++ [⟨db.nextId, n, u, p, none, 1⟩]) ∧
    (∀ (db : DB) (n u p : String),
      (add_repository (add_repository db n u p).2 n u p).1 = (add_repository db n u p).1 ∧
      (add_repository (add_repository db n u p).2 n u p).2.rows.length =
        (add_repository db n u p).2.rows.length) := by
  refine ⟨?_, ?_, ?_⟩
  · intro db n u p r hfind
    rw [add_repository, hfind]
    refine ⟨rfl, by simp, rfl, ?_⟩
    have hmem : r ∈ db.rows := List.mem_of_find?_eq_some hfind
    refine ⟨{r with name := n, url := u, local_path := p, is_active := 1}, ?_,
      rfl, rfl, rfl, rfl, rfl⟩
    simp only
    apply List.mem_map.mpr
    exact ⟨r, hmem, by rw [updateFn, if_pos rfl]⟩
  · intro db n u p hfind
    rw [add_repository, hfind]
    exact ⟨rfl, rfl⟩
  · intro db n u p
    cases hfind : db.rows.find? (matchQ n u p) with
    | some r =>
      obtain ⟨row2, hf2, hid2, -, -, -, -⟩ :=
        find?_map_updateFn n u p r.id db.rows r hfind rfl
      have hinner : add_repository db n u p =
          (r.id, ⟨db.rows.map (updateFn n u p r.id), db.nextId⟩) := by
        rw [add_repository, hfind]
      rw [hinner, add_repository]
      simp only [hf2]
      exact ⟨hid2, by simp⟩
    | none =>
      have hinner : add_repository db n u p =
          (db.nextId, ⟨db.rows ++ [⟨db.nextId, n, u, p, none, 1⟩], db.nextId + 1⟩) := by
        rw [add_repository, hfind]
      rw [hinner, add_repository]
      have hnew : (db.rows ++ [(⟨db.nextId, n, u, p, none, 1⟩ : Row)]).find? (matchQ n u p) =
          some ⟨db.nextId, n, u, p, none, 1⟩ := by
        rw [List.find?_append, hfind]
        rw [List.find?_cons_of_pos _ (by simp [matchQ])]
        rfl
      simp only [hnew]
      constructor <;> simp

/-- The database holding the single row `(1, "A", "u1", "p1")`, for the
C6 counterexample. -/
def db1W : DB := (add_repository DB.empty "A" "u1" "p1").2

/-- Counterexample to claim C6 as stated: no row with the exact triple
`("B", "u1", "p2")` exists in `db1W`, so by the claim the call should
insert a new row and return a new id — but because the existing row
matches on `url` alone, the code updates row 1 in place (overwriting the
logical repository "A") and returns id 1, leaving a single row. -/
theorem add_repository_counterexample :
    (¬ ∃ r ∈ db1W.rows, r.name = "B" ∧ r.url = "u1" ∧ r.local_path = "p2") ∧
    (add_repository db1W "B" "u1" "p2").1 = 1 ∧
    (add_repository db1W "B" "u1" "p2").2.rows.length = 1 ∧
    (∃ r ∈ db1W.rows, r.id = 1 ∧ r.name = "A") ∧
    (∃ r ∈ (add_repository db1W "B" "u1" "p2").2.rows,
      r.id = 1 ∧ r.name = "B" ∧ r.url = "u1" ∧ r.local_path = "p2" ∧ r.is_active = 1) := by
  refine ⟨by decide, by decide, by decide, by decide, by decide⟩

/-- Witness for the amended C6 at concrete inputs: inserting into the
empty store returns id 1; matching an existing row by `url` updates it
in place and returns its id; re-adding identical values keeps the same
id and row count. -/
theorem add_repository_spec_witness :
    ((add_repository DB.empty "A" "u1" "p1").1 = 1) ∧
    ((add_repository db1W "B" "u1" "p2").1 = 1 ∧
      (add_repository db1W "B" "u1" "p2").2.rows.length = 1) ∧
    ((add_repository (add_repository db1W "B" "u1" "p2").2 "B" "u1" "p2").1 =
        (add_repository db1W "B" "u1" "p2").1 ∧
      (add_repository (add_repository db1W "B" "u1" "p2").2 "B" "u1" "p2").2.rows.length =
        (add_repository db1W "B" "u1" "p2").2.rows.length) := by
  have h2 := add_repository_spec.2.1 DB.empty "A" "u1" "p1" (by decide)
  have h1 := add_repository_spec.1 db1W "B" "u1" "p2"
    ⟨1, "A", "u1", "p1", none, 1⟩ (by decide)
  have h3 := add_repository_spec.2.2 db1W "B" "u1" "p2"
  exact ⟨h2.1.trans (by decide), ⟨h1.1.trans (by decide), h1.2.1.trans (by decide)⟩, h3⟩

end RepoGuardian
